import Mathlib

/-!
# nmo-usage: the maintenance-request driver of `main.go`

`simulateOperator` talks to the cluster only through four client calls
(`c.Create`, `c.Get`, `c.Delete` and, inside `printWorkerStatus`, `c.List`).
The embedding is a step machine: a control point `Pc` names the client call
the function is about to make, and one step performs that call, receives the
reply and runs the function up to its next client call, recording everything
it does (calls, log lines, sleeps, `wg.Done()`, `os.Exit`) as events.
-/

namespace NmoUsage

/-! ## Values -/

/-- A Go `error` value: the sentinel `wait.ErrWaitTimeout` of the dependency,
compared by identity at `main.go:89`, or any other error, known by its
message. -/
inductive GoError where
  | ErrWaitTimeout
  | other (msg : String)
  deriving DecidableEq, Repr

/-- The method `err.Error()`. -/
def GoError.Error : GoError → String
  | .ErrWaitTimeout => "timed out waiting for the condition"
  | .other msg => msg

/-- Substring test on character lists. -/
def containsChars : List Char → List Char → Bool
  | [], sub => sub.isEmpty
  | c :: cs, sub => sub.isPrefixOf (c :: cs) || containsChars cs sub

/-- Go `strings.Contains(s, substr)`, on valid UTF-8 text, where containment
by bytes and by characters agree. -/
def stringsContains (s substr : String) : Bool :=
  containsChars s.data substr.data

/-- The text built at `main.go:80`:
`fmt.Sprintf("a NodeMaintenance for node %s already exists", workerName)`. -/
def alreadyExistsText (workerName : String) : String :=
  "a NodeMaintenance for node " ++ workerName ++ " already exists"

/-- The test of `main.go:80` on a create error. -/
def isAlreadyExists (workerName : String) (err : GoError) : Bool :=
  stringsContains err.Error (alreadyExistsText workerName)

/-- Modelled from the spec: the phase constant `nmov1beta1.MaintenanceRunning`
of the dependency (the `Running` of spec §8). -/
def MaintenanceRunning : String := "Running"

/-- Modelled from the spec: the phase constant
`nmov1beta1.MaintenanceSucceeded` of the dependency (spec §4.1, step 2: "stop
polling exactly when phase == Succeeded"). -/
def MaintenanceSucceeded : String := "Succeeded"

/-- Modelled from the spec: the fields of `nm.Status` that `simulateOperator`
reads (`main.go:107-110`; spec §3: phase, total pods, eviction pods, pending
pods, last error). -/
structure NodeMaintenanceStatus where
  Phase : String
  TotalPods : Int
  EvictionPods : Int
  PendingPods : List String
  LastError : String
  deriving DecidableEq, Repr

/-- The fields of `corev1.Node` that the program reads (`main.go:48`, `61`). -/
structure Node where
  Name : String
  Unschedulable : Bool
  deriving DecidableEq, Repr

/-- The `client.ListOptions` built by `getWorker` (`main.go:154-160`). -/
structure ListOptions where
  LabelSelector : List (String × String)
  FieldSelector : Option (String × String)
  deriving DecidableEq, Repr

/-- The `time.Duration` unit `time.Second`, in nanoseconds. -/
def Second : Nat := 1000000000

/-- Modelled from the spec: the type `wait.Backoff` of the dependency
`k8s.io/apimachinery/pkg/util/wait`, with the fields set at `main.go:76`: the
number of attempts, the initial delay and the growth factor (spec §4.1, step
1). `Jitter` and `Cap` keep their zero value there; `Factor` is a whole
number here (it is `1`). -/
structure Backoff where
  Steps : Nat
  Duration : Nat
  Factor : Nat
  deriving DecidableEq, Repr

/-- Modelled from the spec: the method `(*wait.Backoff).Step` of the dependency
for zero `Jitter` and `Cap`: the delay to sleep now, and the backoff with one
step less and the delay grown by the factor. -/
def Backoff.Step (b : Backoff) : Nat × Backoff :=
  if b.Steps < 1 then (b.Duration, b)
  else
    (b.Duration,
      { Steps := b.Steps - 1
        Duration := if b.Factor ≠ 0 then b.Duration * b.Factor else b.Duration
        Factor := b.Factor })

/-- Modelled from the spec: the loop of `wait.ExponentialBackoff` of the
dependency, which runs its condition while `Steps > 0`, after an attempt
whose condition returned `(false, nil)`. With one step left the loop ends at
once; otherwise it sleeps the delay of `Step` and goes round again. The
result is the delays slept, and the backoff of the next attempt, or `none`
when the attempts are used up and the loop returns `ErrWaitTimeout`. -/
def Backoff.afterAttempt (b : Backoff) : List Nat × Option Backoff :=
  if b.Steps = 1 then ([], none)
  else if b.Step.2.Steps > 0 then ([b.Step.1], some b.Step.2)
  else ([b.Step.1], none)

/-- The literal of `main.go:76`. -/
def backoff : Backoff := { Steps := 10, Duration := 10 * Second, Factor := 1 }

/-! ## Client calls, events and outcomes -/

/-- A call on the `client.Client`. -/
inductive Call where
  /-- Call `c.Create(ctx, nm)` with `nm.Name`, `nm.Spec.NodeName`, `nm.Spec.Reason`. -/
  | Create (name nodeName reason : String)
  /-- Call `c.Get(ctx, client.ObjectKeyFromObject(nm), nm)`. -/
  | Get (name : String)
  /-- Call `c.Delete(ctx, nm)`. -/
  | Delete (name : String)
  /-- Call `c.List(ctx, nodes, listOpt)`. -/
  | List (opts : ListOptions)
  deriving DecidableEq, Repr

/-- What one run does, in order. -/
inductive Event where
  | call (c : Call)
  /-- A line written through the actor's own `logger`. -/
  | log (msg : String)
  /-- A line written through the process-wide `log` package. -/
  | stdlog (msg : String)
  | sleep (d : Nat)
  /-- The call `wg.Done()`. -/
  | wgDone
  /-- The call `os.Exit(code)`, reached through `log.Fatal*`. -/
  | exit (code : Nat)
  deriving DecidableEq, Repr

/-- How a run of `simulateOperator` ends. -/
inductive Outcome where
  /-- The function returned at `main.go:127`, after `wg.Done()`. -/
  | success
  /-- The function returned at `main.go:93` with the error of the backoff. -/
  | createFailed (err : GoError)
  /-- A `Fatal*` log call ended the process, with this message. -/
  | fatal (msg : String)
  /-- A run-time panic (index out of range). -/
  | panic
  deriving DecidableEq, Repr

/-- The four places where `simulateOperator` calls `printWorkerStatus`. -/
inductive Site where
  /-- At `main.go:97`. -/
  | afterCreate
  /-- At `main.go:106`, with the status the fetch just stored in `nm`. -/
  | inLoop (st : NodeMaintenanceStatus)
  /-- At `main.go:120`. -/
  | beforeDelete
  /-- At `main.go:125`. -/
  | afterDelete
  deriving DecidableEq, Repr

/-- The control point of a run: the client call it is about to make. -/
inductive Pc where
  /-- About to call `c.Create` at `main.go:78`, inside `wait.ExponentialBackoff` with this
  backoff state. -/
  | create (b : Backoff)
  /-- About to call `c.List` inside `printWorkerStatus` at this site. -/
  | status (site : Site)
  /-- About to call `c.Get` at `main.go:100`. -/
  | get
  /-- About to call `c.Delete` at `main.go:122`. -/
  | delete
  | halted (o : Outcome)
  deriving DecidableEq, Repr

/-! ## `getWorker` and `printWorkerStatus` -/

/-- How a call of `getWorker` ends. -/
inductive WorkerResult where
  | node (n : Node)
  /-- A `log.Fatal*` call with this message, which ends the process. -/
  | fatal (msg : String)
  /-- The index expression `nodes.Items[0]` out of range. -/
  | panic
  deriving DecidableEq, Repr

/-- The list options of `getWorker` (`main.go:154-160`). -/
def listOptions (name : String) : ListOptions :=
  { LabelSelector := [("node-role.kubernetes.io/worker", "")]
    FieldSelector := if name ≠ "" then some ("metadata.name", name) else none }

/-- The part of `getWorker` after `c.List` replied (`main.go:163-173`). -/
def getWorkerReply (name : String) (reply : Except GoError (List Node)) : WorkerResult :=
  match reply with
  | .error err => .fatal ("Failed to list nodes: " ++ err.Error ++ "\n")
  | .ok items =>
    if items.length = 0 then .fatal "Discovered 0 workers.\n"
    else if name ≠ "" ∧ items.length ≠ 1 then
      .fatal ("Discovered " ++ toString items.length ++ " workers, but expected 1\n")
    else
      match items.head? with
      | some n => .node n
      | none => .panic

/-- The function `getWorker` (`main.go:153-174`) over a client whose `List`
answers with `list`. -/
def getWorker (list : ListOptions → Except GoError (List Node)) (name : String) :
    WorkerResult :=
  getWorkerReply name (list (listOptions name))

/-- The line of `printWorkerStatus` (`main.go:61`). -/
def workerStatusLine (w : Node) : String :=
  "Node: " ++ w.Name ++ "   Schedulable: " ++ toString (!w.Unschedulable) ++ "\n"

/-- The line of `main.go:107-108`. -/
def phaseLine (st : NodeMaintenanceStatus) : String :=
  "Phase:" ++ st.Phase ++ "    Total Pods:" ++ toString st.TotalPods ++
    "    Eviction Pods:" ++ toString st.EvictionPods ++
    "    Pending Pods:" ++ toString st.PendingPods.length ++
    "    Last Error:" ++ st.LastError ++ " \n"

/-! ## The steps of `simulateOperator` -/

/-- The request object of `main.go:68-74`: its name and reason. -/
def nmName : String := "nm-test"

/-- The reason of the request object (`main.go:72`). -/
def nmReason : String := "Testing NMO"

/-- Events that come first, then the rest of a step. -/
def andThen (evs : List Event) (r : List Event × Pc) : List Event × Pc :=
  (evs ++ r.1, r.2)

/-- The exit of `main.go:88-94` when `wait.ExponentialBackoff` returned `err`. -/
def createFailure (err : GoError) : List Event × Pc :=
  andThen (if err = .ErrWaitTimeout then [.log "Waiting to create a NM CR timed out\n"] else [])
    ([.log ("Failed to create NodeMaintenance CR: " ++ err.Error)], .halted (.createFailed err))

/-- The start of `simulateOperator` up to its first client call
(`main.go:65-77`): `wait.ExponentialBackoff` enters its loop when
`backoff.Steps > 0` and otherwise returns `ErrWaitTimeout` at once. -/
def start (b : Backoff) : List Event × Pc :=
  andThen [.log "Starting Operator\n"]
    (if b.Steps > 0 then ([], .create b) else createFailure .ErrWaitTimeout)

/-- After `c.Create` replied (`main.go:78-95`, inside the loop of
`wait.ExponentialBackoff`): `reply` is the error, `none` for `nil`. -/
def afterCreate (workerName : String) (b : Backoff) (reply : Option GoError) :
    List Event × Pc :=
  match reply with
  | some err =>
    if isAlreadyExists workerName err then
      -- the condition returned (false, nil): the loop sleeps and retries, or times out
      andThen (.log "NodeMaintenance CR already exists for the node" ::
          b.afterAttempt.1.map Event.sleep)
        (match b.afterAttempt.2 with
         | some next => ([], .create next)
         | none => createFailure .ErrWaitTimeout)
    else
      -- the condition returned (false, err): the loop returns err
      andThen [.log ("Failed to create NodeMaintenance CR: " ++ err.Error)] (createFailure err)
  | none =>
    -- the condition returned (true, nil): the loop returns nil
    ([.log "Created NodeMaintenance CR - waiting for drained node"], .status .afterCreate)

/-- What follows a `printWorkerStatus` that returned, at each site. -/
def afterStatusAt : Site → List Event × Pc
  | .afterCreate => ([], .get)
  | .inLoop st =>
    andThen [.log (phaseLine st)]
      (if st.Phase = MaintenanceSucceeded then
        ([.log "Drain successful\n", .log "Working for 15 seconds\n", .sleep (15 * Second)],
          .status .beforeDelete)
       else ([.sleep (5 * Second)], .get))
  | .beforeDelete => ([.log "Finished work - deleting NodeMaintenance CR\n"], .delete)
  | .afterDelete => ([.wgDone], .halted .success)

/-- After the `c.List` of `printWorkerStatus(c, workerName)` replied
(`main.go:59-62` with `getWorker`), at this site. -/
def afterStatus (workerName : String) (site : Site) (reply : Except GoError (List Node)) :
    List Event × Pc :=
  match getWorkerReply workerName reply with
  | .fatal msg => ([.stdlog msg, .exit 1], .halted (.fatal msg))
  | .panic => ([], .halted .panic)
  | .node w => andThen [.stdlog (workerStatusLine w)] (afterStatusAt site)

/-- After `c.Get` replied (`main.go:100-106`). -/
def afterGet (reply : Except GoError NodeMaintenanceStatus) : List Event × Pc :=
  match reply with
  | .error err =>
    ([.log ("Failed to get NodeMaintenance CR: " ++ err.Error), .sleep (5 * Second)], .get)
  | .ok st => ([], .status (.inLoop st))

/-- The message of `main.go:123`. -/
def deleteFailedText (err : GoError) : String :=
  "Failed to delete NodeMaintenance CR: " ++ err.Error

/-- After `c.Delete` replied (`main.go:122-125`). -/
def afterDelete (reply : Option GoError) : List Event × Pc :=
  match reply with
  | some err => ([.log (deleteFailedText err), .exit 1], .halted (.fatal (deleteFailedText err)))
  | none => ([], .status .afterDelete)

/-- Past the create phase: the control points that follow a successful create,
and the ends they lead to. -/
def Pc.pastCreate : Pc → Bool
  | .create _ => false
  | .halted (.createFailed _) => false
  | _ => true

/-- Past the polling loop: from the hold on, and every end of a run. -/
def Pc.pastPolling : Pc → Bool
  | .status .beforeDelete => true
  | .delete => true
  | .status .afterDelete => true
  | .halted _ => true
  | _ => false

/-- Past the delete call, and every end of a run. -/
def Pc.pastDelete : Pc → Bool
  | .status .afterDelete => true
  | .halted _ => true
  | _ => false

/-- A fetch reply that ends the polling: the fetch succeeded and the phase it
stored is `Succeeded` (`main.go:100`, `110`). -/
def reportsSucceeded : Except GoError NodeMaintenanceStatus → Bool
  | .ok st => decide (st.Phase = MaintenanceSucceeded)
  | .error _ => false

/-! ## One run against scripted replies -/

/-- The replies of the cluster to one run: the reply to the `i`-th call of
each kind, counted from `0`. -/
structure Env where
  create : Nat → Option GoError
  get : Nat → Except GoError NodeMaintenanceStatus
  list : Nat → Except GoError (List Node)
  delete : Nat → Option GoError

/-- Recognises a `c.Create` call. -/
def Event.isCreate : Event → Bool
  | .call (.Create _ _ _) => true
  | _ => false

/-- Recognises a `c.Get` call. -/
def Event.isGet : Event → Bool
  | .call (.Get _) => true
  | _ => false

/-- Recognises a `c.Delete` call. -/
def Event.isDelete : Event → Bool
  | .call (.Delete _) => true
  | _ => false

/-- Recognises a `c.List` call. -/
def Event.isList : Event → Bool
  | .call (.List _) => true
  | _ => false

/-- Recognises a client call. -/
def Event.isCall : Event → Bool
  | .call _ => true
  | _ => false

/-- A list of events without client calls. -/
def noCalls (l : List Event) : Prop := ∀ e ∈ l, e.isCall = false

/-- The number of `c.Create` calls in a trace. -/
def creates (t : List Event) : Nat := t.countP Event.isCreate

/-- The number of `c.Get` calls in a trace. -/
def gets (t : List Event) : Nat := t.countP Event.isGet

/-- The number of `c.Delete` calls in a trace. -/
def deletes (t : List Event) : Nat := t.countP Event.isDelete

/-- The number of `c.List` calls in a trace. -/
def lists (t : List Event) : Nat := t.countP Event.isList

/-- Recognises a `wg.Done()` call. -/
def Event.isDone : Event → Bool
  | .wgDone => true
  | _ => false

/-- The number of `wg.Done()` calls in a trace. -/
def dones (t : List Event) : Nat := t.countP Event.isDone

/-- The wait group of `main` (`main.go:51-56`): after `wg.Add(2)`, `wg.Wait()`
returns once the two actors, with these traces, made two `wg.Done()` calls. -/
def waitReturns (t1 t2 : List Event) : Bool := decide (dones t1 + dones t2 = 2)

/-- The number of successful fetches among the first `j` fetches of a run: each
of them is followed by one worker lookup (`main.go:100-106`), a failed fetch
by none. -/
def fetchesOk (env : Env) : Nat → Nat
  | 0 => 0
  | j + 1 =>
    fetchesOk env j +
      (match env.get j with
        | .ok _ => 1
        | .error _ => 0)

/-- A run so far: what it did, and where it stands. -/
structure Run where
  trace : List Event
  pc : Pc
  deriving DecidableEq, Repr

/-- One step of a run: make the pending call, take the reply from `env`, and go
on to the next call. A halted run stays as it is. -/
def Run.step (env : Env) (workerName : String) (r : Run) : Run :=
  match r.pc with
  | .create b =>
    let o := afterCreate workerName b (env.create (creates r.trace))
    ⟨r.trace ++ .call (.Create nmName workerName nmReason) :: o.1, o.2⟩
  | .status site =>
    let o := afterStatus workerName site (env.list (lists r.trace))
    ⟨r.trace ++ .call (.List (listOptions workerName)) :: o.1, o.2⟩
  | .get =>
    let o := afterGet (env.get (gets r.trace))
    ⟨r.trace ++ .call (.Get nmName) :: o.1, o.2⟩
  | .delete =>
    let o := afterDelete (env.delete (deletes r.trace))
    ⟨r.trace ++ .call (.Delete nmName) :: o.1, o.2⟩
  | .halted _ => r

/-- The function `simulateOperator` (`main.go:64-127`) run against `env` for at
most `n` client calls. -/
def simulateOperator (env : Env) (workerName : String) (n : Nat) : Run :=
  (Run.step env workerName)^[n] ⟨(start backoff).1, (start backoff).2⟩


/-! ## The calls on the maintenance request -/

/-- The three operations on the maintenance request. -/
inductive ServiceCall where
  | create
  | get
  | delete
  deriving DecidableEq, Repr

/-- The operation on the maintenance request that an event is, if any: worker
lookups (`c.List`), log lines and sleeps are none. -/
def Event.service : Event → Option ServiceCall
  | .call (.Create _ _ _) => some .create
  | .call (.Get _) => some .get
  | .call (.Delete _) => some .delete
  | _ => none

/-- The calls on the maintenance request made in a trace, in order. -/
def serviceCalls (t : List Event) : List ServiceCall := t.filterMap Event.service

/-- The last create call made (number `a`, counted from 1) succeeded. -/
def createdOk (env : Env) (a : Nat) : Prop := 0 < a ∧ env.create (a - 1) = none

/-- The last get call made (number `b`, counted from 1) reported `Succeeded`. -/
def drainedOk (env : Env) (b : Nat) : Prop := 0 < b ∧ reportsSucceeded (env.get (b - 1)) = true

/-- What each control point knows about the calls made so far: `a` create
calls, `b` get calls and `c` delete calls. -/
def pcKnows (env : Env) (a b c : Nat) : Pc → Prop
  | .create _ => b = 0 ∧ c = 0
  | .status .afterCreate => b = 0 ∧ c = 0 ∧ createdOk env a
  | .get => c = 0 ∧ createdOk env a
  | .status (.inLoop st) => c = 0 ∧ createdOk env a ∧ 0 < b ∧ env.get (b - 1) = .ok st
  | .status .beforeDelete => c = 0 ∧ createdOk env a ∧ drainedOk env b
  | .delete => c = 0 ∧ createdOk env a ∧ drainedOk env b
  | .status .afterDelete => True
  | .halted _ => True

/-- The lifecycle invariant of a run: its calls on the maintenance request are
`a` creates, then `b` gets, then `c` deletes with `c ≤ 1`; a get follows a
successful create and a delete follows a get that reported `Succeeded`. -/
def lifecycleInv (env : Env) (r : Run) : Prop :=
  ∃ a b c,
    serviceCalls r.trace =
      List.replicate a .create ++ List.replicate b .get ++ List.replicate c .delete ∧
    creates r.trace = a ∧ gets r.trace = b ∧ deletes r.trace = c ∧
    c ≤ 1 ∧ (0 < b → createdOk env a) ∧ (0 < c → drainedOk env b) ∧
    pcKnows env a b c r.pc

/-! ## Sample clusters -/

/-- The rejection of a second request for a node: an error whose message is
the text that `main.go:80` looks for. -/
def alreadyExistsError (workerName : String) : GoError :=
  .other (alreadyExistsText workerName)

/-- A status with this phase and nothing else to tell. -/
def statusWith (phase : String) : NodeMaintenanceStatus :=
  { Phase := phase, TotalPods := 0, EvictionPods := 0, PendingPods := [], LastError := "" }

/-- The worker node of the sample clusters. -/
def nodeA : Node := { Name := "nodeA", Unschedulable := false }

/-- A cluster where the request for `nodeA` always exists already. -/
def busyEnv : Env :=
  { create := fun _ => some (alreadyExistsError "nodeA")
    get := fun _ => .ok (statusWith MaintenanceSucceeded)
    list := fun _ => .ok [nodeA]
    delete := fun _ => none }

/-- A cluster whose create fails for another reason. -/
def brokenCreateEnv : Env :=
  { create := fun _ => some (.other "Internal error occurred: failed calling webhook")
    get := fun _ => .ok (statusWith MaintenanceSucceeded)
    list := fun _ => .ok [nodeA]
    delete := fun _ => none }

/-- A cluster where the request exists for the first two create calls, and the
fetches report `Running`, `Running`, `Succeeded`; `del` is the reply to delete. -/
def scenarioEnv (del : Option GoError) : Env :=
  { create := fun i => if i < 2 then some (alreadyExistsError "nodeA") else none
    get := fun i =>
      if i < 2 then .ok (statusWith MaintenanceRunning) else .ok (statusWith MaintenanceSucceeded)
    list := fun _ => .ok [nodeA]
    delete := fun _ => del }

/-- A cluster where create succeeds at once and every worker lookup fails. -/
def lookupFailsEnv : Env :=
  { create := fun _ => none
    get := fun i =>
      if i < 2 then .ok (statusWith MaintenanceRunning) else .ok (statusWith MaintenanceSucceeded)
    list := fun _ => .error (.other "connection refused")
    delete := fun _ => none }

/-- A cluster where create succeeds at once, the fetches report `Running`,
`Running`, `Succeeded`, and the worker lookups fail from the second on. -/
def lookupFailsLaterEnv : Env :=
  { create := fun _ => none
    get := fun i =>
      if i < 2 then .ok (statusWith MaintenanceRunning) else .ok (statusWith MaintenanceSucceeded)
    list := fun i => if i < 1 then .ok [nodeA] else .error (.other "connection refused")
    delete := fun _ => none }

/-- A cluster where create succeeds at once, the first fetch fails and the
second reports `Succeeded`; the three worker lookups made up to the delete
return the worker, and the one after the delete fails. -/
def failedFetchEnv : Env :=
  { create := fun _ => none
    get := fun i =>
      if i < 1 then .error (.other "connection reset by peer")
      else .ok (statusWith MaintenanceSucceeded)
    list := fun i => if i < 3 then .ok [nodeA] else .error (.other "connection refused")
    delete := fun _ => none }

/-- A cluster where create succeeds at once and the first fetch finds no
request (`NotFound`). -/
def notFoundEnv : Env :=
  { create := fun _ => none
    get := fun i =>
      if i < 1 then .error (.other "nodemaintenances.nodemaintenance.medik8s.io \"nm-test\" not found")
      else .ok (statusWith MaintenanceSucceeded)
    list := fun _ => .ok [nodeA]
    delete := fun _ => none }

/-! ## Two actors against a stub service -/

/-- Modelled from the spec: the stub maintenance service of the end-to-end
scenario (spec §8, "create for identity `nm-test` succeeds for the first
caller and fails AlreadyExists for the second until the first deletes").
The stub knows whether the request `nm-test` exists, and its phase. -/
structure Stub where
  present : Bool
  phase : String
  deriving DecidableEq, Repr

/-- The error of the stub for a request that does not exist. -/
def notFoundError : GoError :=
  .other "nodemaintenances.nodemaintenance.medik8s.io \"nm-test\" not found"

/-- Modelled from the spec: create on the stub is accepted only when no request
exists, and otherwise fails with the "already exists" condition for the target. -/
def Stub.create (target : String) (s : Stub) : Stub × Option GoError :=
  if s.present then (s, some (alreadyExistsError target))
  else ({ present := true, phase := MaintenanceRunning }, none)

/-- Modelled from the spec: get on the stub returns the status of the request. -/
def Stub.get (s : Stub) : Except GoError NodeMaintenanceStatus :=
  if s.present then .ok (statusWith s.phase) else .error notFoundError

/-- Modelled from the spec: delete on the stub frees the identity. -/
def Stub.delete (s : Stub) : Stub × Option GoError :=
  if s.present then ({ present := false, phase := "" }, none) else (s, some notFoundError)

/-- Modelled from the spec: the inventory of the stub lists the one target
node, unschedulable while a request exists. -/
def Stub.list (target : String) (s : Stub) : Except GoError (List Node) :=
  .ok [{ Name := target, Unschedulable := s.present }]

/-- Modelled from the spec: the status of an existing request reaches `Succeeded`. -/
def Stub.drain (s : Stub) : Stub :=
  if s.present then { s with phase := MaintenanceSucceeded } else s

/-- One step of an actor against the stub: the pending call is made on the
stub, and the actor runs on to its next call. -/
def actorStep (target : String) (stub : Stub) (r : Run) : Stub × Run :=
  match r.pc with
  | .create b =>
    let o := afterCreate target b (stub.create target).2
    ((stub.create target).1, ⟨r.trace ++ .call (.Create nmName target nmReason) :: o.1, o.2⟩)
  | .status site =>
    let o := afterStatus target site (stub.list target)
    (stub, ⟨r.trace ++ .call (.List (listOptions target)) :: o.1, o.2⟩)
  | .get =>
    let o := afterGet stub.get
    (stub, ⟨r.trace ++ .call (.Get nmName) :: o.1, o.2⟩)
  | .delete =>
    let o := afterDelete stub.delete.2
    (stub.delete.1, ⟨r.trace ++ .call (.Delete nmName) :: o.1, o.2⟩)
  | .halted _ => (stub, r)

/-- The process has ended: an actor reached `os.Exit` or a panic. -/
def Pc.exited : Pc → Bool
  | .halted (.fatal _) => true
  | .halted .panic => true
  | _ => false

/-- The two goroutines of `main` and the service they share. -/
structure Sys where
  stub : Stub
  a1 : Run
  a2 : Run
  deriving DecidableEq, Repr

/-- What happens next: one of the two actors makes its pending call, or the
service finishes draining. -/
inductive Move where
  | actor1
  | actor2
  | drain
  deriving DecidableEq, Repr

/-- One move of the system. Nothing moves once the process has ended. -/
def Sys.step (target : String) (s : Sys) (m : Move) : Sys :=
  if s.a1.pc.exited || s.a2.pc.exited then s
  else
    match m with
    | .actor1 => { s with stub := (actorStep target s.stub s.a1).1, a1 := (actorStep target s.stub s.a1).2 }
    | .actor2 => { s with stub := (actorStep target s.stub s.a2).1, a2 := (actorStep target s.stub s.a2).2 }
    | .drain => { s with stub := s.stub.drain }

/-- The system when `main` has picked the worker and started both actors
(`main.go:51-55`): no request exists yet and each actor stands at its first
create. The one-second stagger
of `main.go:54` only biases the order of the moves and is left to the schedule. -/
def Sys.init : Sys :=
  { stub := { present := false, phase := "" }
    a1 := ⟨(start backoff).1, (start backoff).2⟩
    a2 := ⟨(start backoff).1, (start backoff).2⟩ }

/-- The two actors of `main` (`main.go:51-56`) run against the stub under a
schedule of moves. -/
def runActors (target : String) (schedule : List Move) : Sys :=
  schedule.foldl (Sys.step target) Sys.init

/-- An actor is between its successful create and its delete. -/
def Pc.holding : Pc → Bool
  | .status .afterCreate => true
  | .get => true
  | .status (.inLoop _) => true
  | .status .beforeDelete => true
  | .delete => true
  | _ => false

/-- The schedule of the end-to-end scenario, in the order the sleeps of the
program give: actor 1 creates at once and sees `Succeeded` on its second
fetch; actor 2 meets "already exists" twice while actor 1 holds the request,
and creates it on its third attempt, after actor 1's delete. -/
def fairSchedule : List Move :=
  [.actor1, .actor1, .actor1, .actor1, .actor2, .drain, .actor1, .actor1, .actor2,
   .actor1, .actor1, .actor1, .actor2, .actor2, .actor2, .actor2, .drain,
   .actor2, .actor2, .actor2, .actor2, .actor2]

/-- A schedule that follows the sleeps of the program: actor 1 creates and
polls twice in every 10 seconds, actor 2 attempts its create once in every 10
seconds, and the drain ends only after actor 2's tenth attempt. -/
def slowDrainSchedule : List Move :=
  (List.replicate 10 [Move.actor1, .actor1, .actor1, .actor1, .actor2]).flatten ++
    [.drain, .actor1, .actor1, .actor1, .actor1, .actor1]

/-- What holds of each actor at every point of a race against the stub: at
most ten create calls, a backoff that still has the attempts not yet made,
and no end other than success or the create timeout, the latter only after
ten create calls. -/
def actorOk (r : Run) : Prop :=
  creates r.trace ≤ 10 ∧
  (∀ b, r.pc = .create b → 1 ≤ b.Steps ∧ creates r.trace + b.Steps = 10) ∧
  (∀ o, r.pc = .halted o →
    o = .success ∨ (o = .createFailed .ErrWaitTimeout ∧ creates r.trace = 10))

/-- The invariant of the race: the request exists exactly while one actor
holds it, and the two actors never hold it together. -/
def sysInv (s : Sys) : Prop :=
  s.stub.present = (s.a1.pc.holding || s.a2.pc.holding) ∧
  ¬ (s.a1.pc.holding = true ∧ s.a2.pc.holding = true) ∧
  actorOk s.a1 ∧ actorOk s.a2

/-- Recognises the log line of a rejected create (`main.go:81`). -/
def Event.isRejection : Event → Bool
  | .log msg => decide (msg = "NodeMaintenance CR already exists for the node")
  | _ => false

/-- The number of create calls of a trace that were rejected as "already
exists" and logged so at `main.go:81`. -/
def rejections (t : List Event) : Nat := t.countP Event.isRejection

/-- What the trace of an actor in the race tells at each control point: before
its create is accepted, and when it ended with the create error, every create
call it made was rejected and it made no get or delete call; from the accepted
create on, all its create calls but the last were rejected; the delete call
is made once, before the last lookup. -/
def actorCounts (r : Run) : Prop :=
  match r.pc with
  | .create _ => rejections r.trace = creates r.trace ∧ gets r.trace = 0 ∧ deletes r.trace = 0
  | .halted (.createFailed _) =>
    rejections r.trace = creates r.trace ∧ gets r.trace = 0 ∧ deletes r.trace = 0
  | .status .afterDelete => rejections r.trace + 1 = creates r.trace ∧ deletes r.trace = 1
  | .halted .success => rejections r.trace + 1 = creates r.trace ∧ deletes r.trace = 1
  | .halted _ => True
  | _ => rejections r.trace + 1 = creates r.trace ∧ deletes r.trace = 0

/-- A bound on the client calls an actor still makes when the request it polls
has been drained: the attempts left and six calls from the accepted create to
the end. -/
def Pc.stepsLeft : Pc → Nat
  | .halted _ => 0
  | .status .afterDelete => 1
  | .delete => 2
  | .status .beforeDelete => 3
  | .status (.inLoop st) => if st.Phase = MaintenanceSucceeded then 4 else 6
  | .get => 5
  | .status .afterCreate => 6
  | .create b => b.Steps + 6

/-- One fair round: the service finishes draining, then each actor makes its
pending call. -/
def fairRound : List Move := [.drain, .actor1, .actor2]

/-- The schedule of `n` fair rounds. -/
def fairRounds (n : Nat) : List Move := (List.replicate n fairRound).flatten

/-! ## Basic facts about one run -/

theorem noCalls_nil : noCalls [] := by
  intro e he
  cases he

theorem noCalls_cons (e : Event) (l : List Event) (he : e.isCall = false) (hl : noCalls l) :
    noCalls (e :: l) := by
  intro x hx
  rcases List.mem_cons.mp hx with rfl | h
  · exact he
  · exact hl x h

theorem noCalls_andThen (evs : List Event) (r : List Event × Pc) (h1 : noCalls evs)
    (h2 : noCalls r.1) : noCalls (andThen evs r).1 := by
  intro x hx
  rcases List.mem_append.mp hx with h | h
  · exact h1 x h
  · exact h2 x h

theorem countP_noCalls (p : Event → Bool) (hp : ∀ e, p e = true → e.isCall = true)
    (l : List Event) (hl : noCalls l) : l.countP p = 0 := by
  rw [List.countP_eq_zero]
  intro e he hpe
  have h1 := hp e hpe
  have h2 := hl e he
  rw [h1] at h2
  exact Bool.noConfusion h2

theorem createFailure_noCalls (err : GoError) : noCalls (createFailure err).1 := by
  unfold createFailure
  apply noCalls_andThen
  · split_ifs
    · exact noCalls_cons _ _ rfl noCalls_nil
    · exact noCalls_nil
  · exact noCalls_cons _ _ rfl noCalls_nil

theorem noCalls_sleeps (l : List Nat) : noCalls (l.map Event.sleep) := by
  intro e he
  obtain ⟨d, _, rfl⟩ := List.mem_map.mp he
  rfl

theorem afterCreate_noCalls (w : String) (b : Backoff) (reply : Option GoError) :
    noCalls (afterCreate w b reply).1 := by
  unfold afterCreate
  split
  · split_ifs
    · refine noCalls_andThen _ _ (noCalls_cons _ _ rfl (noCalls_sleeps _)) ?_
      split
      · exact noCalls_nil
      · exact createFailure_noCalls _
    · exact noCalls_andThen _ _ (noCalls_cons _ _ rfl noCalls_nil) (createFailure_noCalls _)
  · exact noCalls_cons _ _ rfl noCalls_nil

theorem afterStatusAt_noCalls (site : Site) : noCalls (afterStatusAt site).1 := by
  cases site with
  | afterCreate => exact noCalls_nil
  | inLoop st =>
    simp only [afterStatusAt]
    refine noCalls_andThen _ _ (noCalls_cons (.log (phaseLine st)) _ rfl noCalls_nil) ?_
    split_ifs
    · exact noCalls_cons _ _ rfl (noCalls_cons _ _ rfl (noCalls_cons _ _ rfl noCalls_nil))
    · exact noCalls_cons _ _ rfl noCalls_nil
  | beforeDelete => exact noCalls_cons _ _ rfl noCalls_nil
  | afterDelete => exact noCalls_cons _ _ rfl noCalls_nil

theorem afterStatus_noCalls (w : String) (site : Site) (reply : Except GoError (List Node)) :
    noCalls (afterStatus w site reply).1 := by
  unfold afterStatus
  split
  · exact noCalls_cons _ _ rfl (noCalls_cons _ _ rfl noCalls_nil)
  · exact noCalls_nil
  · exact noCalls_andThen _ _ (noCalls_cons _ _ rfl noCalls_nil) (afterStatusAt_noCalls _)

theorem afterGet_noCalls (reply : Except GoError NodeMaintenanceStatus) :
    noCalls (afterGet reply).1 := by
  unfold afterGet
  split
  · exact noCalls_cons _ _ rfl (noCalls_cons _ _ rfl noCalls_nil)
  · exact noCalls_nil

theorem afterDelete_noCalls (reply : Option GoError) : noCalls (afterDelete reply).1 := by
  unfold afterDelete
  split
  · exact noCalls_cons _ _ rfl (noCalls_cons _ _ rfl noCalls_nil)
  · exact noCalls_nil

theorem isCreate_isCall (e : Event) (h : e.isCreate = true) : e.isCall = true := by
  cases e <;> first | rfl | exact Bool.noConfusion h

theorem isGet_isCall (e : Event) (h : e.isGet = true) : e.isCall = true := by
  cases e <;> first | rfl | exact Bool.noConfusion h

theorem isDelete_isCall (e : Event) (h : e.isDelete = true) : e.isCall = true := by
  cases e <;> first | rfl | exact Bool.noConfusion h

theorem isList_isCall (e : Event) (h : e.isList = true) : e.isCall = true := by
  cases e <;> first | rfl | exact Bool.noConfusion h

theorem creates_noCalls (l : List Event) (h : noCalls l) : creates l = 0 :=
  countP_noCalls _ isCreate_isCall l h

theorem gets_noCalls (l : List Event) (h : noCalls l) : gets l = 0 :=
  countP_noCalls _ isGet_isCall l h

theorem deletes_noCalls (l : List Event) (h : noCalls l) : deletes l = 0 :=
  countP_noCalls _ isDelete_isCall l h

theorem lists_noCalls (l : List Event) (h : noCalls l) : lists l = 0 :=
  countP_noCalls _ isList_isCall l h

/-- A halted run makes no further step. -/
theorem step_halted (env : Env) (w : String) (r : Run) (o : Outcome) (h : r.pc = .halted o) :
    Run.step env w r = r := by
  unfold Run.step
  rw [h]

theorem iterate_halted (env : Env) (w : String) (r : Run) (o : Outcome) (h : r.pc = .halted o)
    (n : Nat) : (Run.step env w)^[n] r = r := by
  induction n with
  | zero => rfl
  | succ n ih => rw [Function.iterate_succ_apply, step_halted env w r o h, ih]

theorem simulateOperator_succ (env : Env) (w : String) (n : Nat) :
    simulateOperator env w (n + 1) = Run.step env w (simulateOperator env w n) := by
  unfold simulateOperator
  rw [Function.iterate_succ_apply']

theorem simulateOperator_add (env : Env) (w : String) (n m : Nat) :
    simulateOperator env w (n + m) = (Run.step env w)^[m] (simulateOperator env w n) := by
  unfold simulateOperator
  rw [Nat.add_comm, Function.iterate_add_apply]

/-- Once a run has halted it stays as it is. -/
theorem simulateOperator_stable (env : Env) (w : String) (n : Nat) (o : Outcome)
    (h : (simulateOperator env w n).pc = .halted o) (m : Nat) (hm : n ≤ m) :
    simulateOperator env w m = simulateOperator env w n := by
  obtain ⟨k, rfl⟩ := Nat.exists_eq_add_of_le hm
  rw [simulateOperator_add, iterate_halted env w _ o h]

/-! ## Counting calls along a step -/

theorem creates_step (t l : List Event) (c : Call) (hl : noCalls l) :
    creates (t ++ .call c :: l) = creates t + creates [.call c] := by
  have h := creates_noCalls l hl
  unfold creates at *
  rw [List.countP_append, List.countP_cons, h, List.countP_cons, List.countP_nil]

theorem gets_step (t l : List Event) (c : Call) (hl : noCalls l) :
    gets (t ++ .call c :: l) = gets t + gets [.call c] := by
  have h := gets_noCalls l hl
  unfold gets at *
  rw [List.countP_append, List.countP_cons, h, List.countP_cons, List.countP_nil]

theorem deletes_step (t l : List Event) (c : Call) (hl : noCalls l) :
    deletes (t ++ .call c :: l) = deletes t + deletes [.call c] := by
  have h := deletes_noCalls l hl
  unfold deletes at *
  rw [List.countP_append, List.countP_cons, h, List.countP_cons, List.countP_nil]

theorem lists_step (t l : List Event) (c : Call) (hl : noCalls l) :
    lists (t ++ .call c :: l) = lists t + lists [.call c] := by
  have h := lists_noCalls l hl
  unfold lists at *
  rw [List.countP_append, List.countP_cons, h, List.countP_cons, List.countP_nil]

/-- The failing branch of the create step that retries. -/
theorem afterCreate_retry (w : String) (b : Backoff) (err : GoError)
    (hae : isAlreadyExists w err = true) (hs : 2 ≤ b.Steps) :
    afterCreate w b (some err) =
      ([.log "NodeMaintenance CR already exists for the node", .sleep b.Duration],
        .create ⟨b.Steps - 1, if b.Factor ≠ 0 then b.Duration * b.Factor else b.Duration,
          b.Factor⟩) := by
  have h1 : ¬ b.Steps = 1 := by omega
  have h2 : ¬ b.Steps < 1 := by omega
  have h3 : b.Steps - 1 > 0 := by omega
  simp [afterCreate, Backoff.afterAttempt, hae, h1, Backoff.Step, h2, h3, andThen]

/-- The failing branch of the create step on the last attempt. -/
theorem afterCreate_last (w : String) (b : Backoff) (err : GoError)
    (hae : isAlreadyExists w err = true) (hs : b.Steps = 1) :
    (afterCreate w b (some err)).2 = .halted (.createFailed .ErrWaitTimeout) := by
  simp [afterCreate, Backoff.afterAttempt, hae, hs, andThen, createFailure]

/-- The failing branch of the create step on another error. -/
theorem afterCreate_error (w : String) (b : Backoff) (err : GoError)
    (hae : isAlreadyExists w err = false) :
    (afterCreate w b (some err)).2 = .halted (.createFailed err) := by
  simp [afterCreate, hae, andThen, createFailure]

/-- A failed create leads to another attempt or to the end of the run with the
error of the backoff. -/
theorem afterCreate_failed (w : String) (b : Backoff) (err : GoError) :
    (∃ next, (afterCreate w b (some err)).2 = .create next) ∨
      (∃ e, (afterCreate w b (some err)).2 = .halted (.createFailed e)) := by
  simp only [afterCreate, andThen]
  split_ifs
  · split
    · exact Or.inl ⟨_, rfl⟩
    · exact Or.inr ⟨_, rfl⟩
  · exact Or.inr ⟨_, rfl⟩

/-- The state of a run after `k` create calls that all met "already exists",
while attempts remain. -/
theorem create_phase (env : Env) (w : String) (k : Nat) (hk : k ≤ 9)
    (h : ∀ i, i < k → ∃ e, env.create i = some e ∧ isAlreadyExists w e = true) :
    (simulateOperator env w k).pc = .create ⟨10 - k, 10 * Second, 1⟩ ∧
    creates (simulateOperator env w k).trace = k ∧
    gets (simulateOperator env w k).trace = 0 ∧
    deletes (simulateOperator env w k).trace = 0 ∧
    lists (simulateOperator env w k).trace = 0 := by
  induction k with
  | zero => exact ⟨rfl, rfl, rfl, rfl, rfl⟩
  | succ k ih =>
    obtain ⟨hpc, hc, hg, hd, hl⟩ := ih (by omega) (fun i hi => h i (by omega))
    obtain ⟨e, he, hae⟩ := h k (by omega)
    rw [simulateOperator_succ]
    have hstep : Run.step env w (simulateOperator env w k) =
        ⟨(simulateOperator env w k).trace ++ .call (.Create nmName w nmReason) ::
          (afterCreate w ⟨10 - k, 10 * Second, 1⟩ (some e)).1,
          (afterCreate w ⟨10 - k, 10 * Second, 1⟩ (some e)).2⟩ := by
      unfold Run.step
      rw [hpc]
      simp only [hc, he]
    rw [hstep]
    have hloc := afterCreate_noCalls w ⟨10 - k, 10 * Second, 1⟩ (some e)
    refine ⟨?_, ?_, ?_, ?_, ?_⟩
    · show (afterCreate w ⟨10 - k, 10 * Second, 1⟩ (some e)).2 = _
      rw [afterCreate_retry w _ e hae (by show 2 ≤ 10 - k; omega)]
      have e1 : 10 - k - 1 = 10 - (k + 1) := by omega
      simp only [ne_eq, one_ne_zero, not_false_eq_true, if_true, Nat.mul_one, e1]
    · show creates (_ ++ _ :: _) = _
      rw [creates_step _ _ _ hloc, hc]; rfl
    · show gets (_ ++ _ :: _) = _
      rw [gets_step _ _ _ hloc, hg]; rfl
    · show deletes (_ ++ _ :: _) = _
      rw [deletes_step _ _ _ hloc, hd]; rfl
    · show lists (_ ++ _ :: _) = _
      rw [lists_step _ _ _ hloc, hl]; rfl

theorem step_create_shape (env : Env) (w : String) (r : Run) (b : Backoff) (h : r.pc = .create b) :
    Run.step env w r =
      ⟨r.trace ++ .call (.Create nmName w nmReason) ::
          (afterCreate w b (env.create (creates r.trace))).1,
        (afterCreate w b (env.create (creates r.trace))).2⟩ := by
  unfold Run.step
  rw [h]

theorem step_status_shape (env : Env) (w : String) (r : Run) (site : Site)
    (h : r.pc = .status site) :
    Run.step env w r =
      ⟨r.trace ++ .call (.List (listOptions w)) ::
          (afterStatus w site (env.list (lists r.trace))).1,
        (afterStatus w site (env.list (lists r.trace))).2⟩ := by
  unfold Run.step
  rw [h]

theorem step_get_shape (env : Env) (w : String) (r : Run) (h : r.pc = .get) :
    Run.step env w r =
      ⟨r.trace ++ .call (.Get nmName) :: (afterGet (env.get (gets r.trace))).1,
        (afterGet (env.get (gets r.trace))).2⟩ := by
  unfold Run.step
  rw [h]

theorem step_delete_shape (env : Env) (w : String) (r : Run) (h : r.pc = .delete) :
    Run.step env w r =
      ⟨r.trace ++ .call (.Delete nmName) :: (afterDelete (env.delete (deletes r.trace))).1,
        (afterDelete (env.delete (deletes r.trace))).2⟩ := by
  unfold Run.step
  rw [h]

theorem afterStatusAt_pastCreate (site : Site) : (afterStatusAt site).2.pastCreate = true := by
  cases site with
  | afterCreate => rfl
  | inLoop st =>
    simp only [afterStatusAt, andThen]
    split_ifs <;> rfl
  | beforeDelete => rfl
  | afterDelete => rfl

theorem afterStatus_pastCreate (w : String) (site : Site) (reply : Except GoError (List Node)) :
    (afterStatus w site reply).2.pastCreate = true := by
  unfold afterStatus
  split
  · rfl
  · rfl
  · exact afterStatusAt_pastCreate site

theorem afterGet_pastCreate (reply : Except GoError NodeMaintenanceStatus) :
    (afterGet reply).2.pastCreate = true := by
  unfold afterGet
  split <;> rfl

theorem afterDelete_pastCreate (reply : Option GoError) :
    (afterDelete reply).2.pastCreate = true := by
  unfold afterDelete
  split <;> rfl

/-- Past the create phase a step makes no create call and stays past it. -/
theorem step_pastCreate (env : Env) (w : String) (r : Run) (h : r.pc.pastCreate = true) :
    (Run.step env w r).pc.pastCreate = true ∧
      creates (Run.step env w r).trace = creates r.trace := by
  cases hpc : r.pc with
  | create b => rw [hpc] at h; exact Bool.noConfusion h
  | status site =>
    rw [step_status_shape env w r site hpc]
    refine ⟨afterStatus_pastCreate _ _ _, ?_⟩
    show creates (_ ++ _ :: _) = _
    rw [creates_step _ _ _ (afterStatus_noCalls _ _ _)]; rfl
  | get =>
    rw [step_get_shape env w r hpc]
    refine ⟨afterGet_pastCreate _, ?_⟩
    show creates (_ ++ _ :: _) = _
    rw [creates_step _ _ _ (afterGet_noCalls _)]; rfl
  | delete =>
    rw [step_delete_shape env w r hpc]
    refine ⟨afterDelete_pastCreate _, ?_⟩
    show creates (_ ++ _ :: _) = _
    rw [creates_step _ _ _ (afterDelete_noCalls _)]; rfl
  | halted o =>
    rw [step_halted env w r o hpc]
    exact ⟨h, rfl⟩

theorem iterate_pastCreate (env : Env) (w : String) (r : Run) (h : r.pc.pastCreate = true)
    (n : Nat) :
    ((Run.step env w)^[n] r).pc.pastCreate = true ∧
      creates ((Run.step env w)^[n] r).trace = creates r.trace := by
  induction n with
  | zero => exact ⟨h, rfl⟩
  | succ n ih =>
    rw [Function.iterate_succ_apply']
    obtain ⟨h1, h2⟩ := step_pastCreate env w _ ih.1
    exact ⟨h1, h2.trans ih.2⟩

/-- C1. Backoff termination: for every target, when each of the ten create calls
meets the "already exists" condition for that target, the run calls create
exactly 10 times (the configured `Steps`), ends with the timeout outcome
`wait.ErrWaitTimeout`, and calls neither get nor delete, however long it is
observed. -/
theorem backoff_termination (env : Env) (workerName : String)
    (h : ∀ i, i < 10 → ∃ e, env.create i = some e ∧ isAlreadyExists workerName e = true) :
    ∀ n, 10 ≤ n →
      (simulateOperator env workerName n).pc = .halted (.createFailed .ErrWaitTimeout) ∧
      creates (simulateOperator env workerName n).trace = 10 ∧
      gets (simulateOperator env workerName n).trace = 0 ∧
      deletes (simulateOperator env workerName n).trace = 0 := by
  obtain ⟨hpc, hc, hg, hd, _⟩ := create_phase env workerName 9 (by omega) (fun i hi => h i (by omega))
  obtain ⟨e, he, hae⟩ := h 9 (by omega)
  have hstep := step_create_shape env workerName (simulateOperator env workerName 9) _ hpc
  rw [hc, he] at hstep
  have hloc := afterCreate_noCalls workerName ⟨10 - 9, 10 * Second, 1⟩ (some e)
  have h10 : (simulateOperator env workerName 10).pc = .halted (.createFailed .ErrWaitTimeout) := by
    rw [simulateOperator_succ, hstep]
    exact afterCreate_last workerName _ e hae rfl
  intro n hn
  rw [simulateOperator_stable env workerName 10 _ h10 n hn]
  refine ⟨h10, ?_, ?_, ?_⟩
  · rw [simulateOperator_succ, hstep]
    show creates (_ ++ _ :: _) = _
    rw [creates_step _ _ _ hloc, hc]; rfl
  · rw [simulateOperator_succ, hstep]
    show gets (_ ++ _ :: _) = _
    rw [gets_step _ _ _ hloc, hg]; rfl
  · rw [simulateOperator_succ, hstep]
    show deletes (_ ++ _ :: _) = _
    rw [deletes_step _ _ _ hloc, hd]; rfl

/-- C2. Non-retry on unrelated error: for every target and every create error
whose message does not contain "a NodeMaintenance for node <target> already
exists", when the first create call returns that error the run makes exactly
one create call, no get call and no delete call, and ends with that error. -/
theorem unrelated_error_not_retried (env : Env) (workerName : String) (err : GoError)
    (h0 : env.create 0 = some err)
    (hne : stringsContains err.Error (alreadyExistsText workerName) = false) :
    ∀ n, 1 ≤ n →
      (simulateOperator env workerName n).pc = .halted (.createFailed err) ∧
      creates (simulateOperator env workerName n).trace = 1 ∧
      gets (simulateOperator env workerName n).trace = 0 ∧
      deletes (simulateOperator env workerName n).trace = 0 := by
  obtain ⟨hpc, hc, hg, hd, _⟩ := create_phase env workerName 0 (by omega) (fun i hi => absurd hi (by omega))
  have hstep := step_create_shape env workerName (simulateOperator env workerName 0) _ hpc
  rw [hc, h0] at hstep
  have hloc := afterCreate_noCalls workerName ⟨10 - 0, 10 * Second, 1⟩ (some err)
  have h1 : (simulateOperator env workerName 1).pc = .halted (.createFailed err) := by
    rw [simulateOperator_succ, hstep]
    exact afterCreate_error workerName _ err hne
  intro n hn
  rw [simulateOperator_stable env workerName 1 _ h1 n hn]
  refine ⟨h1, ?_, ?_, ?_⟩
  · rw [simulateOperator_succ, hstep]
    show creates (_ ++ _ :: _) = _
    rw [creates_step _ _ _ hloc, hc]; rfl
  · rw [simulateOperator_succ, hstep]
    show gets (_ ++ _ :: _) = _
    rw [gets_step _ _ _ hloc, hg]; rfl
  · rw [simulateOperator_succ, hstep]
    show deletes (_ ++ _ :: _) = _
    rw [deletes_step _ _ _ hloc, hd]; rfl

/-- The run right after its first successful create, reached after `k` retries. -/
theorem create_success (env : Env) (w : String) (k : Nat) (hk : k ≤ 9)
    (hfail : ∀ i, i < k → ∃ e, env.create i = some e ∧ isAlreadyExists w e = true)
    (hok : env.create k = none) :
    (simulateOperator env w (k + 1)).pc = .status .afterCreate ∧
    creates (simulateOperator env w (k + 1)).trace = k + 1 ∧
    gets (simulateOperator env w (k + 1)).trace = 0 ∧
    deletes (simulateOperator env w (k + 1)).trace = 0 ∧
    lists (simulateOperator env w (k + 1)).trace = 0 := by
  obtain ⟨hpc, hc, hg, hd, hl⟩ := create_phase env w k hk hfail
  have hstep := step_create_shape env w (simulateOperator env w k) _ hpc
  rw [hc, hok] at hstep
  have hloc := afterCreate_noCalls w ⟨10 - k, 10 * Second, 1⟩ none
  rw [simulateOperator_succ, hstep]
  refine ⟨rfl, ?_, ?_, ?_, ?_⟩
  · show creates (_ ++ _ :: _) = _
    rw [creates_step _ _ _ hloc, hc]; rfl
  · show gets (_ ++ _ :: _) = _
    rw [gets_step _ _ _ hloc, hg]; rfl
  · show deletes (_ ++ _ :: _) = _
    rw [deletes_step _ _ _ hloc, hd]; rfl
  · show lists (_ ++ _ :: _) = _
    rw [lists_step _ _ _ hloc, hl]; rfl

theorem pastCreate_not_createFailed (pc : Pc) (h : pc.pastCreate = true) (e : GoError) :
    pc ≠ .halted (.createFailed e) := by
  intro hpc
  rw [hpc] at h
  exact Bool.noConfusion h

/-- C3 (as amended). "Already exists" is retried, not reported: for every
`k` from 0 to 9, when the first `k` create calls meet the "already exists"
condition for the target and call `k+1` succeeds, the run makes exactly `k+1`
create calls, never ends with a create error or timeout, and goes on to the
worker lookup of `printWorkerStatus` (`main.go:97`); when that lookup returns
a worker the run enters the polling loop (its next call is the first get), and
when the lookup is fatal the run ends there without polling. -/
theorem already_exists_is_retried (env : Env) (workerName : String) (k : Nat) (hk : k ≤ 9)
    (hfail : ∀ i, i < k → ∃ e, env.create i = some e ∧ isAlreadyExists workerName e = true)
    (hok : env.create k = none) :
    (∀ n, k + 1 ≤ n → creates (simulateOperator env workerName n).trace = k + 1) ∧
    (∀ n e, (simulateOperator env workerName n).pc ≠ .halted (.createFailed e)) ∧
    (simulateOperator env workerName (k + 1)).pc = .status .afterCreate ∧
    (∀ node, getWorkerReply workerName (env.list 0) = .node node →
      (simulateOperator env workerName (k + 2)).pc = .get ∧
      gets (simulateOperator env workerName (k + 2)).trace = 0) ∧
    (∀ msg, getWorkerReply workerName (env.list 0) = .fatal msg →
      ∀ n, k + 2 ≤ n → (simulateOperator env workerName n).pc = .halted (.fatal msg) ∧
        gets (simulateOperator env workerName n).trace = 0) := by
  obtain ⟨hpc, hc, hg, _, hl⟩ := create_success env workerName k hk hfail hok
  have hpast : (simulateOperator env workerName (k + 1)).pc.pastCreate = true := by
    rw [hpc]; rfl
  have hstep := step_status_shape env workerName (simulateOperator env workerName (k + 1)) _ hpc
  rw [hl] at hstep
  have hloc := afterStatus_noCalls workerName .afterCreate (env.list 0)
  have hg2 : gets (simulateOperator env workerName (k + 2)).trace = 0 := by
    rw [show k + 2 = (k + 1) + 1 from rfl, simulateOperator_succ, hstep]
    show gets (_ ++ _ :: _) = _
    rw [gets_step _ _ _ hloc, hg]; rfl
  refine ⟨?_, ?_, hpc, ?_, ?_⟩
  · intro n hn
    obtain ⟨m, rfl⟩ := Nat.exists_eq_add_of_le hn
    rw [simulateOperator_add, (iterate_pastCreate env workerName _ hpast m).2, hc]
  · intro n e
    by_cases hn : n ≤ k
    · have h := (create_phase env workerName n (by omega) (fun i hi => hfail i (by omega))).1
      rw [h]
      intro hcontra
      exact Pc.noConfusion hcontra
    · obtain ⟨m, rfl⟩ := Nat.exists_eq_add_of_le (show k + 1 ≤ n by omega)
      rw [simulateOperator_add]
      exact pastCreate_not_createFailed _ (iterate_pastCreate env workerName _ hpast m).1 e
  · intro node hnode
    refine ⟨?_, hg2⟩
    rw [show k + 2 = (k + 1) + 1 from rfl, simulateOperator_succ, hstep]
    show (afterStatus workerName .afterCreate (env.list 0)).2 = _
    unfold afterStatus
    rw [hnode]
    rfl
  · intro msg hmsg
    have h2 : (simulateOperator env workerName (k + 2)).pc = .halted (.fatal msg) := by
      rw [show k + 2 = (k + 1) + 1 from rfl, simulateOperator_succ, hstep]
      show (afterStatus workerName .afterCreate (env.list 0)).2 = _
      unfold afterStatus
      rw [hmsg]
    intro n hn
    rw [simulateOperator_stable env workerName (k + 2) _ h2 n hn]
    exact ⟨h2, hg2⟩

/-! ## Counts and control point after each kind of step -/

theorem step_create_counts (env : Env) (w : String) (r : Run) (b : Backoff)
    (h : r.pc = .create b) :
    (Run.step env w r).pc = (afterCreate w b (env.create (creates r.trace))).2 ∧
    creates (Run.step env w r).trace = creates r.trace + 1 ∧
    gets (Run.step env w r).trace = gets r.trace ∧
    deletes (Run.step env w r).trace = deletes r.trace ∧
    lists (Run.step env w r).trace = lists r.trace := by
  rw [step_create_shape env w r b h]
  have hloc := afterCreate_noCalls w b (env.create (creates r.trace))
  refine ⟨rfl, ?_, ?_, ?_, ?_⟩
  · show creates (_ ++ _ :: _) = _
    rw [creates_step _ _ _ hloc]; rfl
  · show gets (_ ++ _ :: _) = _
    rw [gets_step _ _ _ hloc]; rfl
  · show deletes (_ ++ _ :: _) = _
    rw [deletes_step _ _ _ hloc]; rfl
  · show lists (_ ++ _ :: _) = _
    rw [lists_step _ _ _ hloc]; rfl

theorem step_status_counts (env : Env) (w : String) (r : Run) (site : Site)
    (h : r.pc = .status site) :
    (Run.step env w r).pc = (afterStatus w site (env.list (lists r.trace))).2 ∧
    creates (Run.step env w r).trace = creates r.trace ∧
    gets (Run.step env w r).trace = gets r.trace ∧
    deletes (Run.step env w r).trace = deletes r.trace ∧
    lists (Run.step env w r).trace = lists r.trace + 1 := by
  rw [step_status_shape env w r site h]
  have hloc := afterStatus_noCalls w site (env.list (lists r.trace))
  refine ⟨rfl, ?_, ?_, ?_, ?_⟩
  · show creates (_ ++ _ :: _) = _
    rw [creates_step _ _ _ hloc]; rfl
  · show gets (_ ++ _ :: _) = _
    rw [gets_step _ _ _ hloc]; rfl
  · show deletes (_ ++ _ :: _) = _
    rw [deletes_step _ _ _ hloc]; rfl
  · show lists (_ ++ _ :: _) = _
    rw [lists_step _ _ _ hloc]; rfl

theorem step_get_counts (env : Env) (w : String) (r : Run) (h : r.pc = .get) :
    (Run.step env w r).pc = (afterGet (env.get (gets r.trace))).2 ∧
    creates (Run.step env w r).trace = creates r.trace ∧
    gets (Run.step env w r).trace = gets r.trace + 1 ∧
    deletes (Run.step env w r).trace = deletes r.trace ∧
    lists (Run.step env w r).trace = lists r.trace := by
  rw [step_get_shape env w r h]
  have hloc := afterGet_noCalls (env.get (gets r.trace))
  refine ⟨rfl, ?_, ?_, ?_, ?_⟩
  · show creates (_ ++ _ :: _) = _
    rw [creates_step _ _ _ hloc]; rfl
  · show gets (_ ++ _ :: _) = _
    rw [gets_step _ _ _ hloc]; rfl
  · show deletes (_ ++ _ :: _) = _
    rw [deletes_step _ _ _ hloc]; rfl
  · show lists (_ ++ _ :: _) = _
    rw [lists_step _ _ _ hloc]; rfl

theorem step_delete_counts (env : Env) (w : String) (r : Run) (h : r.pc = .delete) :
    (Run.step env w r).pc = (afterDelete (env.delete (deletes r.trace))).2 ∧
    creates (Run.step env w r).trace = creates r.trace ∧
    gets (Run.step env w r).trace = gets r.trace ∧
    deletes (Run.step env w r).trace = deletes r.trace + 1 ∧
    lists (Run.step env w r).trace = lists r.trace := by
  rw [step_delete_shape env w r h]
  have hloc := afterDelete_noCalls (env.delete (deletes r.trace))
  refine ⟨rfl, ?_, ?_, ?_, ?_⟩
  · show creates (_ ++ _ :: _) = _
    rw [creates_step _ _ _ hloc]; rfl
  · show gets (_ ++ _ :: _) = _
    rw [gets_step _ _ _ hloc]; rfl
  · show deletes (_ ++ _ :: _) = _
    rw [deletes_step _ _ _ hloc]; rfl
  · show lists (_ ++ _ :: _) = _
    rw [lists_step _ _ _ hloc]; rfl

/-- The trace of a run only grows. -/
theorem step_trace_grows (env : Env) (w : String) (r : Run) :
    ∃ l, (Run.step env w r).trace = r.trace ++ l := by
  cases hpc : r.pc with
  | create b => exact ⟨_, by rw [step_create_shape env w r b hpc]⟩
  | status site => exact ⟨_, by rw [step_status_shape env w r site hpc]⟩
  | get => exact ⟨_, by rw [step_get_shape env w r hpc]⟩
  | delete => exact ⟨_, by rw [step_delete_shape env w r hpc]⟩
  | halted o => exact ⟨[], by rw [step_halted env w r o hpc, List.append_nil]⟩

theorem simulateOperator_trace_grows (env : Env) (w : String) (n m : Nat) (h : n ≤ m) :
    ∃ l, (simulateOperator env w m).trace = (simulateOperator env w n).trace ++ l := by
  induction m with
  | zero =>
    have : n = 0 := by omega
    subst this
    exact ⟨[], by rw [List.append_nil]⟩
  | succ m ih =>
    by_cases hn : n = m + 1
    · subst hn
      exact ⟨[], by rw [List.append_nil]⟩
    · obtain ⟨l, hl⟩ := ih (by omega)
      obtain ⟨l2, hl2⟩ := step_trace_grows env w (simulateOperator env w m)
      refine ⟨l ++ l2, ?_⟩
      rw [simulateOperator_succ, hl2, hl, List.append_assoc]

/-- The number of get calls never goes down along a run. -/
theorem gets_mono (env : Env) (w : String) (n m : Nat) (h : n ≤ m) :
    gets (simulateOperator env w n).trace ≤ gets (simulateOperator env w m).trace := by
  obtain ⟨l, hl⟩ := simulateOperator_trace_grows env w n m h
  rw [hl]
  unfold gets
  rw [List.countP_append]
  omega

theorem afterStatusAt_pastPolling (site : Site) (h : (Pc.status site).pastPolling = true) :
    (afterStatusAt site).2.pastPolling = true := by
  cases site with
  | afterCreate => exact Bool.noConfusion h
  | inLoop st => exact Bool.noConfusion h
  | beforeDelete => rfl
  | afterDelete => rfl

/-- Past the polling loop a step makes no get call and stays past it. -/
theorem step_pastPolling (env : Env) (w : String) (r : Run) (h : r.pc.pastPolling = true) :
    (Run.step env w r).pc.pastPolling = true ∧
      gets (Run.step env w r).trace = gets r.trace := by
  cases hpc : r.pc with
  | create b => rw [hpc] at h; exact Bool.noConfusion h
  | status site =>
    obtain ⟨h1, _, h2, _, _⟩ := step_status_counts env w r site hpc
    refine ⟨?_, h2⟩
    rw [h1]
    unfold afterStatus
    split
    · rfl
    · rfl
    · exact afterStatusAt_pastPolling site (hpc ▸ h)
  | get => rw [hpc] at h; exact Bool.noConfusion h
  | delete =>
    obtain ⟨h1, _, h2, _, _⟩ := step_delete_counts env w r hpc
    refine ⟨?_, h2⟩
    rw [h1]
    unfold afterDelete
    split <;> rfl
  | halted o =>
    rw [step_halted env w r o hpc]
    exact ⟨h, rfl⟩

theorem iterate_pastPolling (env : Env) (w : String) (r : Run) (h : r.pc.pastPolling = true)
    (n : Nat) :
    ((Run.step env w)^[n] r).pc.pastPolling = true ∧
      gets ((Run.step env w)^[n] r).trace = gets r.trace := by
  induction n with
  | zero => exact ⟨h, rfl⟩
  | succ n ih =>
    rw [Function.iterate_succ_apply']
    obtain ⟨h1, h2⟩ := step_pastPolling env w _ ih.1
    exact ⟨h1, h2.trans ih.2⟩

/-- Past the delete call a step makes no delete call and stays past it. -/
theorem step_pastDelete (env : Env) (w : String) (r : Run) (h : r.pc.pastDelete = true) :
    (Run.step env w r).pc.pastDelete = true ∧
      deletes (Run.step env w r).trace = deletes r.trace := by
  cases hpc : r.pc with
  | create b => rw [hpc] at h; exact Bool.noConfusion h
  | status site =>
    obtain ⟨h1, _, _, h2, _⟩ := step_status_counts env w r site hpc
    refine ⟨?_, h2⟩
    rw [h1]
    unfold afterStatus
    split
    · rfl
    · rfl
    · cases site with
      | afterCreate => rw [hpc] at h; exact Bool.noConfusion h
      | inLoop st => rw [hpc] at h; exact Bool.noConfusion h
      | beforeDelete => rw [hpc] at h; exact Bool.noConfusion h
      | afterDelete => rfl
  | get => rw [hpc] at h; exact Bool.noConfusion h
  | delete => rw [hpc] at h; exact Bool.noConfusion h
  | halted o =>
    rw [step_halted env w r o hpc]
    exact ⟨h, rfl⟩

theorem iterate_pastDelete (env : Env) (w : String) (r : Run) (h : r.pc.pastDelete = true)
    (n : Nat) :
    ((Run.step env w)^[n] r).pc.pastDelete = true ∧
      deletes ((Run.step env w)^[n] r).trace = deletes r.trace := by
  induction n with
  | zero => exact ⟨h, rfl⟩
  | succ n ih =>
    rw [Function.iterate_succ_apply']
    obtain ⟨h1, h2⟩ := step_pastDelete env w _ ih.1
    exact ⟨h1, h2.trans ih.2⟩

/-! ## The polling loop -/

theorem afterStatus_node (w : String) (site : Site) (reply : Except GoError (List Node))
    (node : Node) (h : getWorkerReply w reply = .node node) :
    afterStatus w site reply = andThen [.stdlog (workerStatusLine node)] (afterStatusAt site) := by
  unfold afterStatus
  rw [h]

theorem fetchesOk_mono (env : Env) (j m : Nat) (h : j ≤ m) :
    fetchesOk env j ≤ fetchesOk env m := by
  induction m with
  | zero =>
    have : j = 0 := by omega
    subst this
    exact le_refl _
  | succ m ih =>
    by_cases hj : j = m + 1
    · subst hj
      exact le_refl _
    · have := ih (by omega)
      show _ ≤ fetchesOk env m + _
      omega

/-- One round of the polling loop on a fetch that does not end it: the run is
back at the fetch, with one more get call, and one more lookup when the fetch
succeeded. -/
theorem poll_round (env : Env) (w : String) (bound : Nat)
    (hlist : ∀ i, i ≤ bound → ∃ node, getWorkerReply w (env.list i) = .node node)
    (N : Nat) (hpc : (simulateOperator env w N).pc = .get)
    (hl : lists (simulateOperator env w N).trace ≤ bound)
    (hrep : reportsSucceeded (env.get (gets (simulateOperator env w N).trace)) = false) :
    ∃ N', N < N' ∧ (simulateOperator env w N').pc = .get ∧
      gets (simulateOperator env w N').trace = gets (simulateOperator env w N).trace + 1 ∧
      deletes (simulateOperator env w N').trace = deletes (simulateOperator env w N).trace ∧
      lists (simulateOperator env w N').trace = lists (simulateOperator env w N).trace +
        (match env.get (gets (simulateOperator env w N).trace) with
          | .ok _ => 1
          | .error _ => 0) := by
  obtain ⟨h1, _, h2, h3, h4⟩ := step_get_counts env w _ hpc
  rw [← simulateOperator_succ] at h1 h2 h3 h4
  cases hget : env.get (gets (simulateOperator env w N).trace) with
  | error e =>
    refine ⟨N + 1, by omega, ?_, h2, h3, h4⟩
    rw [h1, hget]
    rfl
  | ok st =>
    rw [hget] at h1 hrep
    have hpc1 : (simulateOperator env w (N + 1)).pc = .status (.inLoop st) := by
      rw [h1]; rfl
    obtain ⟨k1, _, k2, k3, k4⟩ := step_status_counts env w _ (.inLoop st) hpc1
    rw [← simulateOperator_succ] at k1 k2 k3 k4
    obtain ⟨node, hnode⟩ := hlist (lists (simulateOperator env w (N + 1)).trace) (by omega)
    have hne : ¬ st.Phase = MaintenanceSucceeded := by
      simpa [reportsSucceeded] using hrep
    refine ⟨N + 1 + 1, by omega, ?_, by rw [k2, h2], by rw [k3, h3], by rw [k4, h4]⟩
    rw [k1, afterStatus_node _ _ _ node hnode]
    simp [afterStatusAt, andThen, hne]

/-- After `j` fetches that do not end the polling the run is at its next fetch,
and has made one lookup after the create and one after each successful fetch. -/
theorem poll_progress (env : Env) (w : String) (m : Nat)
    (hlist : ∀ i, i ≤ fetchesOk env m + 2 →
      ∃ node, getWorkerReply w (env.list i) = .node node)
    (n0 : Nat) (hpc0 : (simulateOperator env w n0).pc = .get)
    (hg0 : gets (simulateOperator env w n0).trace = 0)
    (hd0 : deletes (simulateOperator env w n0).trace = 0)
    (hl0 : lists (simulateOperator env w n0).trace = 1)
    (hbefore : ∀ i, i < m → reportsSucceeded (env.get i) = false) :
    ∀ j, j ≤ m → ∃ N, n0 ≤ N ∧ (simulateOperator env w N).pc = .get ∧
      gets (simulateOperator env w N).trace = j ∧
      deletes (simulateOperator env w N).trace = 0 ∧
      lists (simulateOperator env w N).trace = fetchesOk env j + 1 := by
  intro j
  induction j with
  | zero => exact fun _ => ⟨n0, le_refl _, hpc0, hg0, hd0, by rw [hl0]; rfl⟩
  | succ j ih =>
    intro hj
    obtain ⟨N, hN, hpc, hg, hd, hl⟩ := ih (by omega)
    have hrep := hbefore j (by omega)
    rw [← hg] at hrep
    have hmono := fetchesOk_mono env j m (by omega)
    obtain ⟨N', hN', hpc', hg', hd', hl'⟩ :=
      poll_round env w (fetchesOk env m + 2) hlist N hpc (by omega) hrep
    refine ⟨N', by omega, hpc', by rw [hg', hg], by rw [hd', hd], ?_⟩
    rw [hl', hl, hg]
    show _ = fetchesOk env j + _ + 1
    omega

/-- The round of the polling loop on a fetch that reports `Succeeded`: the run
holds for 15 seconds and stands at its delete call. -/
theorem poll_exit (env : Env) (w : String) (bound : Nat)
    (hlist : ∀ i, i ≤ bound + 1 → ∃ node, getWorkerReply w (env.list i) = .node node)
    (N : Nat) (hpc : (simulateOperator env w N).pc = .get)
    (hl : lists (simulateOperator env w N).trace ≤ bound)
    (hrep : reportsSucceeded (env.get (gets (simulateOperator env w N).trace)) = true) :
    (simulateOperator env w (N + 3)).pc = .delete ∧
      gets (simulateOperator env w (N + 3)).trace = gets (simulateOperator env w N).trace + 1 ∧
      deletes (simulateOperator env w (N + 3)).trace = deletes (simulateOperator env w N).trace ∧
      Event.sleep (15 * Second) ∈ (simulateOperator env w (N + 3)).trace ∧
      lists (simulateOperator env w (N + 3)).trace =
        lists (simulateOperator env w N).trace + 2 := by
  obtain ⟨h1, _, h2, h3, h4⟩ := step_get_counts env w _ hpc
  rw [← simulateOperator_succ] at h1 h2 h3 h4
  cases hget : env.get (gets (simulateOperator env w N).trace) with
  | error e => rw [hget] at hrep; exact Bool.noConfusion hrep
  | ok st =>
    rw [hget] at h1 hrep
    have hpc1 : (simulateOperator env w (N + 1)).pc = .status (.inLoop st) := by
      rw [h1]; rfl
    have hshape := step_status_shape env w _ (.inLoop st) hpc1
    obtain ⟨k1, _, k2, k3, k4⟩ := step_status_counts env w _ (.inLoop st) hpc1
    rw [← simulateOperator_succ] at k1 k2 k3 k4 hshape
    obtain ⟨node, hnode⟩ := hlist (lists (simulateOperator env w (N + 1)).trace) (by omega)
    have hph : st.Phase = MaintenanceSucceeded := by
      simpa [reportsSucceeded] using hrep
    have hpc2 : (simulateOperator env w (N + 1 + 1)).pc = .status .beforeDelete := by
      rw [k1, afterStatus_node _ _ _ node hnode]
      simp [afterStatusAt, andThen, hph]
    have hsleep : Event.sleep (15 * Second) ∈ (simulateOperator env w (N + 1 + 1)).trace := by
      rw [hshape, afterStatus_node _ _ _ node hnode]
      simp [afterStatusAt, andThen, hph]
    obtain ⟨l1, _, l2, l3, l4⟩ := step_status_counts env w _ .beforeDelete hpc2
    rw [← simulateOperator_succ] at l1 l2 l3 l4
    obtain ⟨node2, hnode2⟩ := hlist (lists (simulateOperator env w (N + 1 + 1)).trace) (by omega)
    obtain ⟨l, hl⟩ := simulateOperator_trace_grows env w (N + 1 + 1) (N + 1 + 1 + 1) (by omega)
    refine ⟨?_, by rw [l2, k2, h2], by rw [l3, k3, h3], ?_, by rw [l4, k4, h4]⟩
    · show (simulateOperator env w (N + 1 + 1 + 1)).pc = _
      rw [l1, afterStatus_node _ _ _ node2 hnode2]
      rfl
    · show _ ∈ (simulateOperator env w (N + 1 + 1 + 1)).trace
      rw [hl]
      exact List.mem_append_left _ hsleep

theorem afterDelete_pastDelete (reply : Option GoError) :
    (afterDelete reply).2.pastDelete = true := by
  unfold afterDelete
  split <;> rfl

/-- C4 (as amended). Poll termination and resilience to failed fetches: after a
successful create, when the worker lookups of `printWorkerStatus` made up to
the delete call (one after the create, one after each successful fetch, one
after the hold) return a worker, and fetch number `m+1` is the first
successful fetch whose phase is `Succeeded` (the `m` earlier ones being failed
fetches or fetches with another phase), the run calls get exactly `m+1` times
and never once more, is not ended by the failed fetches, holds for 15 seconds
and reaches its delete call, which it makes once. -/
theorem poll_until_succeeded (env : Env) (workerName : String) (k m : Nat) (hk : k ≤ 9)
    (hfail : ∀ i, i < k → ∃ e, env.create i = some e ∧ isAlreadyExists workerName e = true)
    (hok : env.create k = none)
    (hlist : ∀ i, i ≤ fetchesOk env m + 2 →
      ∃ node, getWorkerReply workerName (env.list i) = .node node)
    (hbefore : ∀ i, i < m → reportsSucceeded (env.get i) = false)
    (hterm : reportsSucceeded (env.get m) = true) :
    (∀ n, gets (simulateOperator env workerName n).trace ≤ m + 1) ∧
    ∃ N, (simulateOperator env workerName N).pc = .delete ∧
      gets (simulateOperator env workerName N).trace = m + 1 ∧
      deletes (simulateOperator env workerName N).trace = 0 ∧
      lists (simulateOperator env workerName N).trace = fetchesOk env m + 3 ∧
      Event.sleep (15 * Second) ∈ (simulateOperator env workerName N).trace ∧
      (∀ n, N ≤ n → gets (simulateOperator env workerName n).trace = m + 1) ∧
      (∀ n, N < n → deletes (simulateOperator env workerName n).trace = 1) := by
  obtain ⟨hpc, _, hg, hd, hl⟩ := create_success env workerName k hk hfail hok
  obtain ⟨s1, _, s2, s3, s4⟩ := step_status_counts env workerName _ .afterCreate hpc
  rw [← simulateOperator_succ] at s1 s2 s3 s4
  obtain ⟨node, hnode⟩ := hlist (lists (simulateOperator env workerName (k + 1)).trace)
    (by omega)
  have hpc2 : (simulateOperator env workerName (k + 1 + 1)).pc = .get := by
    rw [s1, afterStatus_node _ _ _ node hnode]
    rfl
  obtain ⟨N0, _, p1, p2, p3, p4⟩ := poll_progress env workerName m hlist (k + 1 + 1) hpc2
    (by rw [s2, hg]) (by rw [s3, hd]) (by rw [s4, hl]) hbefore m (le_refl _)
  have hrep : reportsSucceeded (env.get (gets (simulateOperator env workerName N0).trace)) = true := by
    rw [p2]; exact hterm
  obtain ⟨e1, e2, e3, e4, e5⟩ :=
    poll_exit env workerName (fetchesOk env m + 1) hlist N0 p1 (by omega) hrep
  rw [p2] at e2
  rw [p3] at e3
  rw [p4] at e5
  have hpast : (simulateOperator env workerName (N0 + 3)).pc.pastPolling = true := by
    rw [e1]; rfl
  have hafter : ∀ n, N0 + 3 ≤ n → gets (simulateOperator env workerName n).trace = m + 1 := by
    intro n hn
    obtain ⟨t, rfl⟩ := Nat.exists_eq_add_of_le hn
    rw [simulateOperator_add, (iterate_pastPolling env workerName _ hpast t).2, e2]
  refine ⟨?_, N0 + 3, e1, e2, e3, e5, e4, hafter, ?_⟩
  · intro n
    by_cases hn : N0 + 3 ≤ n
    · rw [hafter n hn]
    · have := gets_mono env workerName n (N0 + 3) (by omega)
      rw [e2] at this
      exact this
  · intro n hn
    obtain ⟨d1, _, _, d2, _⟩ := step_delete_counts env workerName _ e1
    rw [← simulateOperator_succ] at d1 d2
    have hpd : (simulateOperator env workerName (N0 + 3 + 1)).pc.pastDelete = true := by
      rw [d1]; exact afterDelete_pastDelete _
    obtain ⟨t, rfl⟩ := Nat.exists_eq_add_of_le (show N0 + 3 + 1 ≤ n by omega)
    rw [simulateOperator_add, (iterate_pastDelete env workerName _ hpd t).2, d2, e3]

/-! ## The lifecycle invariant -/

theorem serviceCalls_noCalls (l : List Event) (h : noCalls l) : serviceCalls l = [] := by
  unfold serviceCalls
  rw [List.filterMap_eq_nil_iff]
  intro e he
  have := h e he
  cases e <;> first | rfl | exact Bool.noConfusion this

theorem serviceCalls_step (t l : List Event) (c : Call) (hl : noCalls l) :
    serviceCalls (t ++ .call c :: l) = serviceCalls t ++ serviceCalls [.call c] := by
  have h := serviceCalls_noCalls l hl
  unfold serviceCalls at *
  rw [List.filterMap_append, List.filterMap_cons, List.filterMap_cons, List.filterMap_nil, h]

theorem lifecycleInv_start (env : Env) (w : String) : lifecycleInv env (simulateOperator env w 0) :=
  ⟨0, 0, 0, rfl, rfl, rfl, rfl, by omega, by omega, by omega, ⟨rfl, rfl⟩⟩

theorem lifecycleInv_step (env : Env) (w : String) (r : Run) (h : lifecycleInv env r) :
    lifecycleInv env (Run.step env w r) := by
  obtain ⟨a, b, c, hsc, ha, hb, hc, hc1, hbc, hcd, hpc⟩ := h
  cases hp : r.pc with
  | halted o =>
    rw [step_halted env w r o hp]
    exact ⟨a, b, c, hsc, ha, hb, hc, hc1, hbc, hcd, hpc⟩
  | create bk =>
    rw [hp] at hpc
    obtain ⟨hb0, hc0⟩ := hpc
    subst hb0 hc0
    obtain ⟨k1, k2, k3, k4, _⟩ := step_create_counts env w r bk hp
    have hsc' : serviceCalls (Run.step env w r).trace = List.replicate (a + 1) .create := by
      rw [step_create_shape env w r bk hp]
      show serviceCalls (_ ++ _ :: _) = _
      rw [serviceCalls_step _ _ _ (afterCreate_noCalls _ _ _), hsc, List.replicate_succ']
      simp [serviceCalls, Event.service]
    refine ⟨a + 1, 0, 0, by simpa using hsc', by rw [k2, ha], by rw [k3, hb], by rw [k4, hc],
      by omega, by omega, by omega, ?_⟩
    rw [k1, ha]
    cases hrep : env.create a with
    | none => exact ⟨rfl, rfl, by omega, by simpa using hrep⟩
    | some e =>
      rcases afterCreate_failed w bk e with ⟨b', h⟩ | ⟨err, h⟩
      · rw [h]; exact ⟨rfl, rfl⟩
      · rw [h]; trivial
  | get =>
    rw [hp] at hpc
    obtain ⟨hc0, hcr⟩ := hpc
    subst hc0
    obtain ⟨k1, k2, k3, k4, _⟩ := step_get_counts env w r hp
    have hsc' : serviceCalls (Run.step env w r).trace =
        List.replicate a .create ++ List.replicate (b + 1) .get := by
      rw [step_get_shape env w r hp]
      show serviceCalls (_ ++ _ :: _) = _
      rw [serviceCalls_step _ _ _ (afterGet_noCalls _), hsc, List.replicate_succ' b]
      simp [serviceCalls, Event.service]
    refine ⟨a, b + 1, 0, by simpa using hsc', by rw [k2, ha], by rw [k3, hb], by rw [k4, hc],
      by omega, fun _ => hcr, by omega, ?_⟩
    rw [k1, hb]
    cases hrep : env.get b with
    | error e => exact ⟨rfl, hcr⟩
    | ok st => exact ⟨rfl, hcr, by omega, by simpa using hrep⟩
  | delete =>
    rw [hp] at hpc
    obtain ⟨hc0, hcr, hdr⟩ := hpc
    subst hc0
    obtain ⟨k1, k2, k3, k4, _⟩ := step_delete_counts env w r hp
    have hsc' : serviceCalls (Run.step env w r).trace =
        List.replicate a .create ++ List.replicate b .get ++ List.replicate 1 .delete := by
      rw [step_delete_shape env w r hp]
      show serviceCalls (_ ++ _ :: _) = _
      rw [serviceCalls_step _ _ _ (afterDelete_noCalls _), hsc]
      simp [serviceCalls, Event.service]
    refine ⟨a, b, 1, hsc', by rw [k2, ha], by rw [k3, hb], by rw [k4, hc],
      by omega, fun _ => hcr, fun _ => hdr, ?_⟩
    rw [k1]
    cases env.delete (deletes r.trace) <;> trivial
  | status site =>
    rw [hp] at hpc
    obtain ⟨k1, k2, k3, k4, _⟩ := step_status_counts env w r site hp
    have hsc' : serviceCalls (Run.step env w r).trace = serviceCalls r.trace := by
      rw [step_status_shape env w r site hp]
      show serviceCalls (_ ++ _ :: _) = _
      rw [serviceCalls_step _ _ _ (afterStatus_noCalls _ _ _)]
      simp [serviceCalls, Event.service]
    refine ⟨a, b, c, by rw [hsc', hsc], by rw [k2, ha], by rw [k3, hb], by rw [k4, hc],
      hc1, hbc, hcd, ?_⟩
    rw [k1]
    unfold afterStatus
    split
    · trivial
    · trivial
    · cases site with
      | afterCreate => exact ⟨hpc.2.1, hpc.2.2⟩
      | inLoop st =>
        obtain ⟨hc0, hcr, hb0, hget⟩ := hpc
        simp only [afterStatusAt, andThen]
        split_ifs with hph
        · refine ⟨hc0, hcr, hb0, ?_⟩
          rw [hget]
          simpa [reportsSucceeded] using hph
        · exact ⟨hc0, hcr⟩
      | beforeDelete => exact hpc
      | afterDelete => trivial

theorem lifecycleInv_run (env : Env) (w : String) (n : Nat) :
    lifecycleInv env (simulateOperator env w n) := by
  induction n with
  | zero => exact lifecycleInv_start env w
  | succ n ih =>
    rw [simulateOperator_succ]
    exact lifecycleInv_step env w _ ih

/-- C9. Lifecycle ordering: at every point of every run, whatever the replies
to create, get, delete and the worker lookups, the calls made on the
maintenance request are some creates, then some gets, then at most one
delete, and nothing after it; a get is made only after the last create
succeeded, the delete only after the last get reported phase `Succeeded`; so
when no fetch ever reports `Succeeded`, delete is never called. -/
theorem lifecycle_ordering (env : Env) (workerName : String) (n : Nat) :
    ∃ a b c,
      serviceCalls (simulateOperator env workerName n).trace =
        List.replicate a .create ++ List.replicate b .get ++ List.replicate c .delete ∧
      creates (simulateOperator env workerName n).trace = a ∧
      gets (simulateOperator env workerName n).trace = b ∧
      deletes (simulateOperator env workerName n).trace = c ∧
      c ≤ 1 ∧
      (0 < b → 0 < a ∧ env.create (a - 1) = none) ∧
      (0 < c → 0 < b ∧ reportsSucceeded (env.get (b - 1)) = true) ∧
      ((∀ i, reportsSucceeded (env.get i) = false) → c = 0) := by
  obtain ⟨a, b, c, hsc, ha, hb, hc, hc1, hbc, hcd, _⟩ := lifecycleInv_run env workerName n
  refine ⟨a, b, c, hsc, ha, hb, hc, hc1, hbc, hcd, ?_⟩
  intro hnever
  by_contra hne
  have := (hcd (by omega)).2
  rw [hnever] at this
  exact Bool.noConfusion this

/-! ## Signalling the wait group -/

theorem dones_step (t l : List Event) (c : Call) :
    dones (t ++ .call c :: l) = dones t + dones l := by
  unfold dones
  rw [List.countP_append, List.countP_cons]
  simp [Event.isDone]

theorem createFailure_dones (err : GoError) :
    dones (createFailure err).1 = 0 ∧ (createFailure err).2 ≠ .halted .success := by
  unfold createFailure andThen
  split_ifs <;> exact ⟨rfl, fun h => by cases h⟩

theorem afterCreate_dones (w : String) (b : Backoff) (reply : Option GoError) :
    dones (afterCreate w b reply).1 = 0 ∧ (afterCreate w b reply).2 ≠ .halted .success := by
  cases reply with
  | none => exact ⟨rfl, fun h => by cases h⟩
  | some e =>
    have h1 := createFailure_dones .ErrWaitTimeout
    have h2 := createFailure_dones e
    have hs : ∀ l : List Nat, List.countP Event.isDone (l.map Event.sleep) = 0 := by
      intro l
      rw [List.countP_eq_zero]
      intro x hx
      obtain ⟨d, _, rfl⟩ := List.mem_map.mp hx
      exact Bool.noConfusion
    simp only [afterCreate, andThen]
    split_ifs
    · split
      · exact ⟨by simp [dones, Event.isDone, hs], fun h => by cases h⟩
      · exact ⟨by simpa [dones, Event.isDone, hs] using h1.1, h1.2⟩
    · exact ⟨by simpa [dones, Event.isDone] using h2.1, h2.2⟩

theorem afterGet_dones (reply : Except GoError NodeMaintenanceStatus) :
    dones (afterGet reply).1 = 0 ∧ (afterGet reply).2 ≠ .halted .success := by
  cases reply <;> exact ⟨rfl, fun h => by cases h⟩

theorem afterDelete_dones (reply : Option GoError) :
    dones (afterDelete reply).1 = 0 ∧ (afterDelete reply).2 ≠ .halted .success := by
  cases reply <;> exact ⟨rfl, fun h => by cases h⟩

theorem afterStatus_dones (w : String) (site : Site) (reply : Except GoError (List Node)) :
    ((afterStatus w site reply).2 = .halted .success ∧ dones (afterStatus w site reply).1 = 1) ∨
    ((afterStatus w site reply).2 ≠ .halted .success ∧ dones (afterStatus w site reply).1 = 0) := by
  unfold afterStatus
  split
  · exact Or.inr ⟨(fun h => by cases h), rfl⟩
  · exact Or.inr ⟨(fun h => by cases h), rfl⟩
  · cases site with
    | afterCreate => exact Or.inr ⟨(fun h => by cases h), rfl⟩
    | inLoop st =>
      simp only [afterStatusAt, andThen]
      split_ifs
      · exact Or.inr ⟨(fun h => by cases h), rfl⟩
      · exact Or.inr ⟨(fun h => by cases h), rfl⟩
    | beforeDelete => exact Or.inr ⟨(fun h => by cases h), rfl⟩
    | afterDelete => exact Or.inl ⟨rfl, rfl⟩

/-- The number of `wg.Done()` calls of a run: one when it ended with success,
none at any other point. -/
theorem dones_run (env : Env) (w : String) (n : Nat) :
    ((simulateOperator env w n).pc = .halted .success ∧
        dones (simulateOperator env w n).trace = 1) ∨
    ((simulateOperator env w n).pc ≠ .halted .success ∧
        dones (simulateOperator env w n).trace = 0) := by
  induction n with
  | zero => exact Or.inr ⟨(fun h => by cases h), rfl⟩
  | succ n ih =>
    rw [simulateOperator_succ]
    cases hp : (simulateOperator env w n).pc with
    | halted o =>
      rw [step_halted env w _ o hp]
      exact ih
    | create b =>
      have h0 : dones (simulateOperator env w n).trace = 0 := by
        rcases ih with ⟨h, _⟩ | ⟨_, h⟩
        · rw [hp] at h; cases h
        · exact h
      rw [step_create_shape env w _ b hp]
      obtain ⟨d1, d2⟩ := afterCreate_dones w b (env.create (creates (simulateOperator env w n).trace))
      exact Or.inr ⟨d2, by show dones (_ ++ _ :: _) = 0; rw [dones_step, h0, d1]⟩
    | get =>
      have h0 : dones (simulateOperator env w n).trace = 0 := by
        rcases ih with ⟨h, _⟩ | ⟨_, h⟩
        · rw [hp] at h; cases h
        · exact h
      rw [step_get_shape env w _ hp]
      obtain ⟨d1, d2⟩ := afterGet_dones (env.get (gets (simulateOperator env w n).trace))
      exact Or.inr ⟨d2, by show dones (_ ++ _ :: _) = 0; rw [dones_step, h0, d1]⟩
    | delete =>
      have h0 : dones (simulateOperator env w n).trace = 0 := by
        rcases ih with ⟨h, _⟩ | ⟨_, h⟩
        · rw [hp] at h; cases h
        · exact h
      rw [step_delete_shape env w _ hp]
      obtain ⟨d1, d2⟩ := afterDelete_dones (env.delete (deletes (simulateOperator env w n).trace))
      exact Or.inr ⟨d2, by show dones (_ ++ _ :: _) = 0; rw [dones_step, h0, d1]⟩
    | status site =>
      have h0 : dones (simulateOperator env w n).trace = 0 := by
        rcases ih with ⟨h, _⟩ | ⟨_, h⟩
        · rw [hp] at h; cases h
        · exact h
      rw [step_status_shape env w _ site hp]
      rcases afterStatus_dones w site (env.list (lists (simulateOperator env w n).trace)) with
        ⟨d1, d2⟩ | ⟨d1, d2⟩
      · exact Or.inl ⟨d1, by show dones (_ ++ _ :: _) = 1; rw [dones_step, h0, d2]⟩
      · exact Or.inr ⟨d1, by show dones (_ ++ _ :: _) = 0; rw [dones_step, h0, d2]⟩

theorem dones_le_one (env : Env) (w : String) (n : Nat) :
    dones (simulateOperator env w n).trace ≤ 1 := by
  rcases dones_run env w n with ⟨_, h⟩ | ⟨_, h⟩ <;> omega

/-! ## Delete and fetch failures -/

/-- C6. Delete failure is fatal and reported: in every run that reaches its
delete call (so create succeeded and polling observed `Succeeded`), when the
delete call returns an error `e` the run ends there with the fatal outcome
whose message reports `e`; it never ends with success, and nothing follows
the failed delete but that log line and the exit. -/
theorem delete_failure_is_fatal (env : Env) (workerName : String) (e : GoError) (N : Nat)
    (hpc : (simulateOperator env workerName N).pc = .delete)
    (hdel : env.delete 0 = some e) :
    simulateOperator env workerName (N + 1) =
      ⟨(simulateOperator env workerName N).trace ++
          [.call (.Delete nmName), .log ("Failed to delete NodeMaintenance CR: " ++ e.Error),
            .exit 1],
        .halted (.fatal ("Failed to delete NodeMaintenance CR: " ++ e.Error))⟩ ∧
    (∀ n, N + 1 ≤ n → simulateOperator env workerName n = simulateOperator env workerName (N + 1)) ∧
    (∀ n, (simulateOperator env workerName n).pc ≠ .halted .success) := by
  obtain ⟨a, b, c, _, _, _, hc, _, _, _, hk⟩ := lifecycleInv_run env workerName N
  rw [hpc] at hk
  have hc0 : deletes (simulateOperator env workerName N).trace = 0 := by rw [hc]; exact hk.1
  have hstep := step_delete_shape env workerName _ hpc
  rw [← simulateOperator_succ, hc0, hdel] at hstep
  have hend : (simulateOperator env workerName (N + 1)).pc =
      .halted (.fatal ("Failed to delete NodeMaintenance CR: " ++ e.Error)) := by
    rw [hstep]; rfl
  refine ⟨hstep, fun n hn => simulateOperator_stable env workerName (N + 1) _ hend n hn, ?_⟩
  intro n hsucc
  by_cases hn : N + 1 ≤ n
  · rw [simulateOperator_stable env workerName (N + 1) _ hend n hn, hend] at hsucc
    cases hsucc
  · have := simulateOperator_stable env workerName n _ hsucc N (by omega)
    rw [this, hsucc] at hpc
    cases hpc

/-- C7 (as amended). A failed fetch never ends the run, whatever the error
(`NotFound` included): when a get call returns an error, the run logs it,
sleeps 5 seconds and stands at the fetch again, and its next step is one
more get call. -/
theorem fetch_error_is_retried (env : Env) (workerName : String) (e : GoError) (N : Nat)
    (hpc : (simulateOperator env workerName N).pc = .get)
    (herr : env.get (gets (simulateOperator env workerName N).trace) = .error e) :
    simulateOperator env workerName (N + 1) =
      ⟨(simulateOperator env workerName N).trace ++
          [.call (.Get nmName), .log ("Failed to get NodeMaintenance CR: " ++ e.Error),
            .sleep (5 * Second)],
        .get⟩ ∧
    gets (simulateOperator env workerName (N + 2)).trace =
      gets (simulateOperator env workerName N).trace + 2 := by
  have hstep := step_get_shape env workerName _ hpc
  rw [← simulateOperator_succ, herr] at hstep
  have hpc1 : (simulateOperator env workerName (N + 1)).pc = .get := by
    rw [hstep]; rfl
  obtain ⟨_, _, g1, _, _⟩ := step_get_counts env workerName _ hpc
  obtain ⟨_, _, g2, _, _⟩ := step_get_counts env workerName _ hpc1
  rw [← simulateOperator_succ] at g1 g2
  exact ⟨hstep, by rw [show N + 2 = N + 1 + 1 from rfl, g2, g1]⟩

/-! ## Choosing the worker -/

/-- C8. Worker selection: for every list of nodes returned by the inventory and
every requested name, `getWorker` returns the first listed node exactly when
the list is not empty and the name is empty or the list has exactly one item;
when the list is empty, or a name was requested and the list has more than
one item, it ends in the fatal startup condition and returns no node; the
index-0 access is never out of range. -/
theorem getWorker_selection (name : String) (items : List Node) :
    (∀ n, getWorker (fun _ => .ok items) name = .node n ↔
      (items.head? = some n ∧ (name = "" ∨ items.length = 1))) ∧
    ((∃ n, getWorker (fun _ => .ok items) name = .node n) ↔
      (items ≠ [] ∧ (name = "" ∨ items.length = 1))) ∧
    ((∃ msg, getWorker (fun _ => .ok items) name = .fatal msg) ↔
      (items = [] ∨ (name ≠ "" ∧ 1 < items.length))) ∧
    getWorker (fun _ => .ok items) name ≠ .panic := by
  cases items with
  | nil => simp [getWorker, getWorkerReply]
  | cons x xs =>
    by_cases hname : name = ""
    · simp [getWorker, getWorkerReply, hname]
    · by_cases hlen : xs = []
      · simp [getWorker, getWorkerReply, hname, hlen]
      · have hpos : 0 < xs.length := List.length_pos.mpr hlen
        simp [getWorker, getWorkerReply, hname, hlen]
        omega

/-! ## The claims on sample clusters -/

theorem backoff_termination_witness :
    (∀ i, i < 10 → ∃ e, busyEnv.create i = some e ∧ isAlreadyExists "nodeA" e = true) ∧
    ((simulateOperator busyEnv "nodeA" 10).pc = .halted (.createFailed .ErrWaitTimeout) ∧
      creates (simulateOperator busyEnv "nodeA" 10).trace = 10 ∧
      gets (simulateOperator busyEnv "nodeA" 10).trace = 0 ∧
      deletes (simulateOperator busyEnv "nodeA" 10).trace = 0) :=
  ⟨fun _ _ => ⟨_, rfl, by decide⟩,
    backoff_termination busyEnv "nodeA" (fun _ _ => ⟨_, rfl, by decide⟩) 10 (le_refl _)⟩

theorem unrelated_error_not_retried_witness :
    (brokenCreateEnv.create 0 = some (.other "Internal error occurred: failed calling webhook") ∧
      stringsContains (GoError.other "Internal error occurred: failed calling webhook").Error
        (alreadyExistsText "nodeA") = false) ∧
    ((simulateOperator brokenCreateEnv "nodeA" 1).pc =
        .halted (.createFailed (.other "Internal error occurred: failed calling webhook")) ∧
      creates (simulateOperator brokenCreateEnv "nodeA" 1).trace = 1 ∧
      gets (simulateOperator brokenCreateEnv "nodeA" 1).trace = 0 ∧
      deletes (simulateOperator brokenCreateEnv "nodeA" 1).trace = 0) :=
  ⟨⟨rfl, by decide⟩,
    unrelated_error_not_retried brokenCreateEnv "nodeA" _ rfl (by decide) 1 (le_refl _)⟩

theorem scenario_create_fails (del : Option GoError) :
    ∀ i, i < 2 → ∃ e, (scenarioEnv del).create i = some e ∧ isAlreadyExists "nodeA" e = true := by
  intro i hi
  refine ⟨alreadyExistsError "nodeA", ?_, by decide⟩
  show (if i < 2 then _ else _) = _
  rw [if_pos hi]

theorem scenario_gets_before (del : Option GoError) :
    ∀ i, i < 2 → reportsSucceeded ((scenarioEnv del).get i) = false := by
  intro i hi
  show reportsSucceeded (if i < 2 then _ else _) = false
  rw [if_pos hi]
  decide

theorem already_exists_is_retried_witness :
    creates (simulateOperator (scenarioEnv none) "nodeA" 3).trace = 3 ∧
    (simulateOperator (scenarioEnv none) "nodeA" 3).pc = .status .afterCreate ∧
    (simulateOperator (scenarioEnv none) "nodeA" 4).pc = .get :=
  have h := already_exists_is_retried (scenarioEnv none) "nodeA" 2 (by decide)
    (scenario_create_fails none) rfl
  ⟨h.1 3 (le_refl _), h.2.2.1, (h.2.2.2.1 nodeA rfl).1⟩

theorem failedFetch_lookups :
    ∀ i, i ≤ fetchesOk failedFetchEnv 1 + 2 →
      ∃ node, getWorkerReply "nodeA" (failedFetchEnv.list i) = .node node := by
  intro i hi
  have h3 : i < 3 := Nat.lt_succ_of_le hi
  refine ⟨nodeA, ?_⟩
  show getWorkerReply "nodeA" (if i < 3 then _ else _) = _
  rw [if_pos h3]
  rfl

theorem failedFetch_before :
    ∀ i, i < 1 → reportsSucceeded (failedFetchEnv.get i) = false := by
  intro i hi
  show reportsSucceeded (if i < 1 then _ else _) = false
  rw [if_pos hi]
  rfl

theorem poll_until_succeeded_witness :
    ((∀ n, gets (simulateOperator (scenarioEnv none) "nodeA" n).trace ≤ 3) ∧
      ∃ N, (simulateOperator (scenarioEnv none) "nodeA" N).pc = .delete ∧
        gets (simulateOperator (scenarioEnv none) "nodeA" N).trace = 3 ∧
        deletes (simulateOperator (scenarioEnv none) "nodeA" N).trace = 0 ∧
        lists (simulateOperator (scenarioEnv none) "nodeA" N).trace = 5 ∧
        Event.sleep (15 * Second) ∈ (simulateOperator (scenarioEnv none) "nodeA" N).trace ∧
        (∀ n, N ≤ n → gets (simulateOperator (scenarioEnv none) "nodeA" n).trace = 3) ∧
        (∀ n, N < n → deletes (simulateOperator (scenarioEnv none) "nodeA" n).trace = 1)) ∧
    (failedFetchEnv.list 3 = .error (.other "connection refused") ∧
      (∀ n, gets (simulateOperator failedFetchEnv "nodeA" n).trace ≤ 2) ∧
      ∃ N, (simulateOperator failedFetchEnv "nodeA" N).pc = .delete ∧
        gets (simulateOperator failedFetchEnv "nodeA" N).trace = 2 ∧
        deletes (simulateOperator failedFetchEnv "nodeA" N).trace = 0 ∧
        lists (simulateOperator failedFetchEnv "nodeA" N).trace = 3 ∧
        Event.sleep (15 * Second) ∈ (simulateOperator failedFetchEnv "nodeA" N).trace ∧
        (∀ n, N ≤ n → gets (simulateOperator failedFetchEnv "nodeA" n).trace = 2) ∧
        (∀ n, N < n → deletes (simulateOperator failedFetchEnv "nodeA" n).trace = 1)) :=
  ⟨poll_until_succeeded (scenarioEnv none) "nodeA" 2 2 (by decide) (scenario_create_fails none)
      rfl (fun _ _ => ⟨nodeA, rfl⟩) (scenario_gets_before none) (by decide),
    rfl,
    poll_until_succeeded failedFetchEnv "nodeA" 0 1 (by decide) (fun i hi => absurd hi (by omega))
      rfl failedFetch_lookups failedFetch_before (by decide)⟩

theorem delete_failure_is_fatal_witness :
    (simulateOperator (scenarioEnv (some (.other "etcdserver: request timed out"))) "nodeA" 11).pc =
      .delete ∧
    (simulateOperator (scenarioEnv (some (.other "etcdserver: request timed out"))) "nodeA" 12).pc =
      .halted (.fatal "Failed to delete NodeMaintenance CR: etcdserver: request timed out") :=
  have h := delete_failure_is_fatal (scenarioEnv (some (.other "etcdserver: request timed out")))
    "nodeA" (.other "etcdserver: request timed out") 11 (by decide) rfl
  ⟨by decide, by rw [h.1]; rfl⟩

theorem fetch_error_is_retried_witness :
    (simulateOperator notFoundEnv "nodeA" 2).pc = .get ∧
    (simulateOperator notFoundEnv "nodeA" 3).pc = .get ∧
    gets (simulateOperator notFoundEnv "nodeA" 4).trace = 2 :=
  have h := fetch_error_is_retried notFoundEnv "nodeA"
    (.other "nodemaintenances.nodemaintenance.medik8s.io \"nm-test\" not found") 2
    (by decide) rfl
  ⟨by decide, by rw [h.1], h.2⟩

/-- C3 as stated fails: on a cluster where the first create succeeds and the
worker lookup of `printWorkerStatus` (`main.go:97`) fails, the run ends with
`log.Fatalf` at that lookup and never enters the polling loop: no get call
is ever made. -/
theorem lookup_failure_stops_before_polling :
    lookupFailsEnv.create 0 = none ∧
    (∀ n, gets (simulateOperator lookupFailsEnv "nodeA" n).trace = 0) ∧
    (∀ n, (simulateOperator lookupFailsEnv "nodeA" n).pc ≠ .get) ∧
    (∀ n, 2 ≤ n → (simulateOperator lookupFailsEnv "nodeA" n).pc =
      .halted (.fatal "Failed to list nodes: connection refused\n")) := by
  have h2 : (simulateOperator lookupFailsEnv "nodeA" 2).pc =
      .halted (.fatal "Failed to list nodes: connection refused\n") := by decide
  have hst := simulateOperator_stable lookupFailsEnv "nodeA" 2 _ h2
  refine ⟨rfl, ?_, ?_, ?_⟩
  · intro n
    by_cases hn : 2 ≤ n
    · rw [hst n hn]; decide
    · interval_cases n <;> decide
  · intro n
    by_cases hn : 2 ≤ n
    · rw [hst n hn]; decide
    · interval_cases n <;> decide
  · intro n hn
    rw [hst n hn]; exact h2

/-- C4 as stated fails: on a cluster where create succeeds and the fetches
report `Running`, `Running`, `Succeeded`, but the worker lookup after the first
fetch (`main.go:106`) fails, the run ends with `log.Fatalf` there: it calls
get once, not three times, and never holds or deletes. -/
theorem lookup_failure_stops_polling :
    lookupFailsLaterEnv.create 0 = none ∧
    (reportsSucceeded (lookupFailsLaterEnv.get 0) = false ∧
      reportsSucceeded (lookupFailsLaterEnv.get 1) = false ∧
      reportsSucceeded (lookupFailsLaterEnv.get 2) = true) ∧
    (∀ n, gets (simulateOperator lookupFailsLaterEnv "nodeA" n).trace ≤ 1) ∧
    (∀ n, deletes (simulateOperator lookupFailsLaterEnv "nodeA" n).trace = 0) ∧
    (∀ n, Event.sleep (15 * Second) ∉ (simulateOperator lookupFailsLaterEnv "nodeA" n).trace) ∧
    (∀ n, 4 ≤ n → (simulateOperator lookupFailsLaterEnv "nodeA" n).pc =
      .halted (.fatal "Failed to list nodes: connection refused\n")) := by
  have h4 : (simulateOperator lookupFailsLaterEnv "nodeA" 4).pc =
      .halted (.fatal "Failed to list nodes: connection refused\n") := by decide
  have hst := simulateOperator_stable lookupFailsLaterEnv "nodeA" 4 _ h4
  refine ⟨rfl, ⟨by decide, by decide, by decide⟩, ?_, ?_, ?_, ?_⟩
  · intro n
    by_cases hn : 4 ≤ n
    · rw [hst n hn]; decide
    · interval_cases n <;> decide
  · intro n
    by_cases hn : 4 ≤ n
    · rw [hst n hn]; decide
    · interval_cases n <;> decide
  · intro n
    by_cases hn : 4 ≤ n
    · rw [hst n hn]; decide
    · interval_cases n <;> decide
  · intro n hn
    rw [hst n hn]; exact h4

/-- C7 as stated fails: on a cluster where the first fetch after a successful
create returns `NotFound`, the run does not end: it stands at the fetch again,
makes a second get call, and goes on to end with success. -/
theorem not_found_is_fetched_again :
    notFoundEnv.get 0 =
      .error (.other "nodemaintenances.nodemaintenance.medik8s.io \"nm-test\" not found") ∧
    gets (simulateOperator notFoundEnv "nodeA" 3).trace = 1 ∧
    (simulateOperator notFoundEnv "nodeA" 3).pc = .get ∧
    gets (simulateOperator notFoundEnv "nodeA" 4).trace = 2 ∧
    (simulateOperator notFoundEnv "nodeA" 8).pc = .halted .success := by
  refine ⟨rfl, ?_, ?_, ?_, ?_⟩ <;> decide

/-- C5 at its failing inputs: a run whose first create fails with another error,
and a run whose ten creates all meet "already exists", both end by the return
of `main.go:93` without any `wg.Done()`; so whatever the other actor does,
the `wg.Wait()` of `main` does not return. -/
theorem create_failure_skips_wgDone :
    (∀ n, 1 ≤ n →
      (simulateOperator brokenCreateEnv "nodeA" n).pc =
          .halted (.createFailed (.other "Internal error occurred: failed calling webhook")) ∧
        dones (simulateOperator brokenCreateEnv "nodeA" n).trace = 0 ∧
        ∀ env w m, waitReturns (simulateOperator brokenCreateEnv "nodeA" n).trace
          (simulateOperator env w m).trace = false) ∧
    (∀ n, 10 ≤ n →
      (simulateOperator busyEnv "nodeA" n).pc = .halted (.createFailed .ErrWaitTimeout) ∧
        dones (simulateOperator busyEnv "nodeA" n).trace = 0 ∧
        ∀ env w m, waitReturns (simulateOperator busyEnv "nodeA" n).trace
          (simulateOperator env w m).trace = false) := by
  have h1 : (simulateOperator brokenCreateEnv "nodeA" 1).pc =
      .halted (.createFailed (.other "Internal error occurred: failed calling webhook")) := by
    decide
  have h10 : (simulateOperator busyEnv "nodeA" 10).pc =
      .halted (.createFailed .ErrWaitTimeout) := by decide
  have d1 : dones (simulateOperator brokenCreateEnv "nodeA" 1).trace = 0 := by decide
  have d10 : dones (simulateOperator busyEnv "nodeA" 10).trace = 0 := by decide
  constructor
  · intro n hn
    rw [simulateOperator_stable brokenCreateEnv "nodeA" 1 _ h1 n hn]
    refine ⟨h1, d1, ?_⟩
    intro env w m
    have := dones_le_one env w m
    unfold waitReturns
    rw [d1]
    exact decide_eq_false (by omega)
  · intro n hn
    rw [simulateOperator_stable busyEnv "nodeA" 10 _ h10 n hn]
    refine ⟨h10, d10, ?_⟩
    intro env w m
    have := dones_le_one env w m
    unfold waitReturns
    rw [d10]
    exact decide_eq_false (by omega)

/-! ## The race of two actors -/

theorem containsChars_self (l : List Char) : containsChars l l = true := by
  cases l with
  | nil => rfl
  | cons c cs =>
    unfold containsChars
    have : (c :: cs).isPrefixOf (c :: cs) = true := by
      rw [List.isPrefixOf_iff_prefix]
    rw [this]
    rfl

/-- The rejection of the stub is one that `main.go:80` recognises. -/
theorem isAlreadyExists_stub (target : String) :
    isAlreadyExists target (alreadyExistsError target) = true :=
  containsChars_self _

theorem getWorkerReply_single (name : String) (n : Node) :
    getWorkerReply name (.ok [n]) = .node n := by
  simp [getWorkerReply]

theorem afterStatus_single (target : String) (site : Site) (n : Node) :
    afterStatus target site (.ok [n]) = andThen [.stdlog (workerStatusLine n)] (afterStatusAt site) :=
  afterStatus_node target site _ n (getWorkerReply_single target n)

theorem afterStatusAt_holding (site : Site) :
    (afterStatusAt site).2.holding = (Pc.status site).holding ∧
      ∀ b, (afterStatusAt site).2 ≠ .create b := by
  cases site with
  | afterCreate => exact ⟨rfl, fun b h => by cases h⟩
  | inLoop st =>
    simp only [afterStatusAt, andThen]
    split_ifs
    · exact ⟨rfl, fun b h => by cases h⟩
    · exact ⟨rfl, fun b h => by cases h⟩
  | beforeDelete => exact ⟨rfl, fun b h => by cases h⟩
  | afterDelete => exact ⟨rfl, fun b h => by cases h⟩

theorem afterStatusAt_halted (site : Site) (o : Outcome) (h : (afterStatusAt site).2 = .halted o) :
    o = .success := by
  cases site with
  | afterCreate => cases h
  | inLoop st =>
    simp only [afterStatusAt, andThen] at h
    split_ifs at h
  | beforeDelete => cases h
  | afterDelete => cases h; rfl

/-- One step of an actor keeps the invariant of the race; `g` tells whether the
other actor holds the request. -/
theorem actorStep_inv (target : String) (stub : Stub) (r : Run) (g : Bool)
    (hp : stub.present = (r.pc.holding || g)) (hx : ¬ (r.pc.holding = true ∧ g = true))
    (hok : actorOk r) :
    (actorStep target stub r).1.present = ((actorStep target stub r).2.pc.holding || g) ∧
    ¬ ((actorStep target stub r).2.pc.holding = true ∧ g = true) ∧
    actorOk (actorStep target stub r).2 := by
  obtain ⟨hle, hcr, hhalt⟩ := hok
  cases hpc : r.pc with
  | halted o =>
    have : actorStep target stub r = (stub, r) := by
      unfold actorStep; rw [hpc]
    rw [this]
    exact ⟨hp, hx, hle, hcr, hhalt⟩
  | create b =>
    obtain ⟨hb1, hb10⟩ := hcr b hpc
    rw [hpc] at hp hx
    have hpg : stub.present = g := by simpa [Pc.holding] using hp
    have hshape : actorStep target stub r =
        ((stub.create target).1,
          ⟨r.trace ++ .call (.Create nmName target nmReason) ::
            (afterCreate target b (stub.create target).2).1,
            (afterCreate target b (stub.create target).2).2⟩) := by
      unfold actorStep; rw [hpc]
    have hcnt : creates (actorStep target stub r).2.trace = creates r.trace + 1 := by
      rw [hshape]
      show creates (_ ++ _ :: _) = _
      rw [creates_step _ _ _ (afterCreate_noCalls _ _ _)]; rfl
    rw [hshape] at hcnt ⊢
    cases hpres : stub.present with
    | true =>
      have hg : g = true := by rw [← hpg, hpres]
      have hc : stub.create target = (stub, some (alreadyExistsError target)) := by
        unfold Stub.create; rw [hpres]; rfl
      rw [hc] at hcnt ⊢
      by_cases hs : b.Steps = 1
      · have hl := afterCreate_last target b _ (isAlreadyExists_stub target) hs
        refine ⟨?_, ?_, ?_, ?_, ?_⟩
        · show stub.present = (Pc.holding _ || g)
          rw [hl, hpres, hg]; rfl
        · show ¬ (Pc.holding _ = true ∧ g = true)
          rw [hl]; exact fun h => Bool.noConfusion h.1
        · show creates _ ≤ 10
          rw [hcnt]; omega
        · intro b' hb'
          have : (afterCreate target b (some (alreadyExistsError target))).2 = .create b' := hb'
          rw [hl] at this; cases this
        · intro o ho
          have : (afterCreate target b (some (alreadyExistsError target))).2 = .halted o := ho
          rw [hl] at this; cases this
          refine Or.inr ⟨rfl, ?_⟩
          show creates _ = 10
          rw [hcnt]; omega
      · have hr := afterCreate_retry target b _ (isAlreadyExists_stub target) (by omega)
        refine ⟨?_, ?_, ?_, ?_, ?_⟩
        · show stub.present = (Pc.holding _ || g)
          rw [hr, hpres, hg]; rfl
        · show ¬ (Pc.holding _ = true ∧ g = true)
          rw [hr]; exact fun h => Bool.noConfusion h.1
        · show creates _ ≤ 10
          rw [hcnt]; omega
        · intro b' hb'
          have h2 : (afterCreate target b (some (alreadyExistsError target))).2 = .create b' := hb'
          rw [hr] at h2
          have h3 := Pc.create.inj h2
          subst h3
          show 1 ≤ b.Steps - 1 ∧ creates _ + (b.Steps - 1) = 10
          rw [hcnt]
          omega
        · intro o ho
          have : (afterCreate target b (some (alreadyExistsError target))).2 = .halted o := ho
          rw [hr] at this; cases this
    | false =>
      have hg : g = false := by rw [← hpg, hpres]
      have hc : stub.create target = ({ present := true, phase := MaintenanceRunning }, none) := by
        unfold Stub.create; rw [hpres]; rfl
      rw [hc] at hcnt ⊢
      refine ⟨?_, ?_, ?_, ?_, ?_⟩
      · show true = (Pc.holding (.status .afterCreate) || g)
        rfl
      · rw [hg]; exact fun h => Bool.noConfusion h.2
      · show creates _ ≤ 10
        rw [hcnt]; omega
      · intro b' hb'
        cases hb'
      · intro o ho
        cases ho
  | get =>
    rw [hpc] at hp hx
    have hpres : stub.present = true := by simpa [Pc.holding] using hp
    have hshape : actorStep target stub r =
        (stub, ⟨r.trace ++ .call (.Get nmName) :: (afterGet stub.get).1, (afterGet stub.get).2⟩) := by
      unfold actorStep; rw [hpc]
    have hget : stub.get = .ok (statusWith stub.phase) := by
      unfold Stub.get; rw [hpres]; rfl
    rw [hshape, hget]
    refine ⟨?_, ?_, ?_, ?_, ?_⟩
    · show stub.present = (Pc.holding (.status (.inLoop _)) || g)
      rw [hpres]; rfl
    · intro h
      exact hx ⟨rfl, h.2⟩
    · show creates (_ ++ _ :: _) ≤ 10
      rw [creates_step _ _ _ (afterGet_noCalls _)]
      exact hle
    · intro b' hb'; cases hb'
    · intro o ho; cases ho
  | delete =>
    rw [hpc] at hp hx
    have hpres : stub.present = true := by simpa [Pc.holding] using hp
    have hg : g = false := by
      cases g with
      | false => rfl
      | true => exact absurd ⟨rfl, rfl⟩ hx
    have hshape : actorStep target stub r =
        (stub.delete.1, ⟨r.trace ++ .call (.Delete nmName) :: (afterDelete stub.delete.2).1,
          (afterDelete stub.delete.2).2⟩) := by
      unfold actorStep; rw [hpc]
    have hdel : stub.delete = ({ present := false, phase := "" }, none) := by
      unfold Stub.delete; rw [hpres]; rfl
    rw [hshape, hdel]
    refine ⟨?_, ?_, ?_, ?_, ?_⟩
    · show false = (Pc.holding (.status .afterDelete) || g)
      rw [hg]; rfl
    · rw [hg]; exact fun h => Bool.noConfusion h.2
    · show creates (_ ++ _ :: _) ≤ 10
      rw [creates_step _ _ _ (afterDelete_noCalls _)]
      exact hle
    · intro b' hb'; cases hb'
    · intro o ho; cases ho
  | status site =>
    rw [hpc] at hp hx
    have hshape : actorStep target stub r =
        (stub, ⟨r.trace ++ .call (.List (listOptions target)) ::
          (afterStatus target site (stub.list target)).1,
          (afterStatus target site (stub.list target)).2⟩) := by
      unfold actorStep; rw [hpc]
    have hloc := afterStatus_noCalls target site (stub.list target)
    have hlist : afterStatus target site (stub.list target) =
        andThen [.stdlog (workerStatusLine ⟨target, stub.present⟩)] (afterStatusAt site) :=
      afterStatus_single target site _
    obtain ⟨hh, hnc⟩ := afterStatusAt_holding site
    rw [hshape]
    refine ⟨?_, ?_, ?_, ?_, ?_⟩
    · show stub.present = (Pc.holding (afterStatus target site (stub.list target)).2 || g)
      rw [hlist]
      show stub.present = (Pc.holding (afterStatusAt site).2 || g)
      rw [hh]; exact hp
    · show ¬ (Pc.holding (afterStatus target site (stub.list target)).2 = true ∧ g = true)
      rw [hlist]
      show ¬ (Pc.holding (afterStatusAt site).2 = true ∧ g = true)
      rw [hh]; exact hx
    · show creates (_ ++ _ :: _) ≤ 10
      rw [creates_step _ _ _ hloc]
      exact hle
    · intro b' hb'
      have h2 : (afterStatus target site (stub.list target)).2 = .create b' := hb'
      rw [hlist] at h2
      exact absurd h2 (hnc b')
    · intro o ho
      have h2 : (afterStatus target site (stub.list target)).2 = .halted o := ho
      rw [hlist] at h2
      exact Or.inl (afterStatusAt_halted site o h2)

theorem drain_present (stub : Stub) : stub.drain.present = stub.present := by
  unfold Stub.drain
  split_ifs with h
  · rfl
  · rfl

theorem sysInv_init : sysInv Sys.init := by
  refine ⟨rfl, fun h => Bool.noConfusion h.1, ?_, ?_⟩ <;>
  · refine ⟨by decide, ?_, ?_⟩
    · intro b hb
      have : b = backoff := (Pc.create.inj hb).symm
      subst this
      exact ⟨by decide, by decide⟩
    · intro o ho
      cases ho

theorem sysInv_step (target : String) (s : Sys) (m : Move) (h : sysInv s) :
    sysInv (Sys.step target s m) := by
  obtain ⟨hp, hx, h1, h2⟩ := h
  unfold Sys.step
  split_ifs with hex
  · exact ⟨hp, hx, h1, h2⟩
  · cases m with
    | actor1 =>
      obtain ⟨k1, k2, k3⟩ := actorStep_inv target s.stub s.a1 s.a2.pc.holding hp hx h1
      exact ⟨k1, k2, k3, h2⟩
    | actor2 =>
      obtain ⟨k1, k2, k3⟩ := actorStep_inv target s.stub s.a2 s.a1.pc.holding
        (by rw [hp, Bool.or_comm]) (fun h => hx ⟨h.2, h.1⟩) h2
      exact ⟨by rw [k1, Bool.or_comm], fun h => k2 ⟨h.2, h.1⟩, h1, k3⟩
    | drain =>
      exact ⟨by rw [← hp]; exact drain_present s.stub, hx, h1, h2⟩

theorem sysInv_foldl (target : String) (schedule : List Move) (s : Sys) (h : sysInv s) :
    sysInv (schedule.foldl (Sys.step target) s) := by
  induction schedule generalizing s with
  | nil => exact h
  | cons m ms ih => exact ih _ (sysInv_step target s m h)

theorem sysInv_run (target : String) (schedule : List Move) :
    sysInv (runActors target schedule) :=
  sysInv_foldl target schedule _ sysInv_init

theorem actorOk_not_exited (r : Run) (h : actorOk r) : r.pc.exited = false := by
  cases hpc : r.pc with
  | halted o =>
    rcases h.2.2 o hpc with rfl | ⟨rfl, _⟩ <;> rfl
  | create b => rfl
  | status site => rfl
  | get => rfl
  | delete => rfl

/-- The create attempt of an actor against the stub succeeds exactly when the
request does not exist. -/
theorem create_attempt (target : String) (stub : Stub) (r : Run) (b : Backoff)
    (hpc : r.pc = .create b) :
    (actorStep target stub r).2.pc = .status .afterCreate ↔ stub.present = false := by
  have hshape : (actorStep target stub r).2.pc =
      (afterCreate target b (stub.create target).2).2 := by
    unfold actorStep; rw [hpc]
  rw [hshape]
  cases hpres : stub.present with
  | true =>
    have hc : (stub.create target).2 = some (alreadyExistsError target) := by
      unfold Stub.create; rw [hpres]; rfl
    rw [hc]
    constructor
    · intro h
      rcases afterCreate_failed target b (alreadyExistsError target) with ⟨n, hn⟩ | ⟨e, he⟩
      · rw [hn] at h; cases h
      · rw [he] at h; cases h
    · intro h; cases h
  | false =>
    have hc : (stub.create target).2 = none := by
      unfold Stub.create; rw [hpres]; rfl
    rw [hc]
    exact ⟨fun _ => rfl, fun _ => rfl⟩

/-! ## Rejected creates and the end of the race -/

theorem rejections_step (t l : List Event) (c : Call) :
    rejections (t ++ .call c :: l) = rejections t + rejections l := by
  unfold rejections
  rw [List.countP_append, List.countP_cons]
  simp [Event.isRejection]

theorem rejections_sleeps (l : List Nat) : rejections (l.map Event.sleep) = 0 := by
  unfold rejections
  rw [List.countP_eq_zero]
  intro x hx
  obtain ⟨d, _, rfl⟩ := List.mem_map.mp hx
  exact Bool.noConfusion

theorem rejections_timeout : rejections (createFailure .ErrWaitTimeout).1 = 0 := by
  decide

theorem phaseLine_ne (st : NodeMaintenanceStatus) :
    phaseLine st ≠ "NodeMaintenance CR already exists for the node" := by
  intro h
  have h2 := congrArg String.data h
  simp [phaseLine] at h2

/-- A create rejected as "already exists" logs one rejection. -/
theorem afterCreate_rejections (w : String) (b : Backoff) (err : GoError)
    (hae : isAlreadyExists w err = true) :
    rejections (afterCreate w b (some err)).1 = 1 := by
  have hs := rejections_sleeps b.afterAttempt.1
  have key : rejections (match b.afterAttempt.2 with
      | some next => (([] : List Event), Pc.create next)
      | none => createFailure .ErrWaitTimeout).1 = 0 := by
    cases b.afterAttempt.2 with
    | none => exact rejections_timeout
    | some next => rfl
  simp only [afterCreate, hae, if_true, andThen]
  unfold rejections at *
  rw [List.countP_append, List.countP_cons, hs, key]
  rfl

theorem afterStatusAt_rejections (site : Site) : rejections (afterStatusAt site).1 = 0 := by
  cases site with
  | afterCreate => rfl
  | inLoop st =>
    have := phaseLine_ne st
    simp only [afterStatusAt, andThen]
    split_ifs <;> simp [rejections, Event.isRejection, this]
  | beforeDelete => decide
  | afterDelete => decide

/-- One step of an actor against the stub keeps what its trace tells. -/
theorem actorStep_counts (target : String) (stub : Stub) (r : Run)
    (hp : r.pc.holding = true → stub.present = true) (h : actorCounts r) :
    actorCounts (actorStep target stub r).2 := by
  cases hpc : r.pc with
  | halted o =>
    have : actorStep target stub r = (stub, r) := by
      unfold actorStep; rw [hpc]
    rw [this]
    exact h
  | create b =>
    unfold actorCounts at h
    rw [hpc] at h
    obtain ⟨hr, hg, hd⟩ := h
    have hshape : (actorStep target stub r).2 =
        ⟨r.trace ++ .call (.Create nmName target nmReason) ::
            (afterCreate target b (stub.create target).2).1,
          (afterCreate target b (stub.create target).2).2⟩ := by
      unfold actorStep; rw [hpc]
    have hloc := afterCreate_noCalls target b (stub.create target).2
    have hc : creates (actorStep target stub r).2.trace = creates r.trace + 1 := by
      rw [hshape]; show creates (_ ++ _ :: _) = _
      rw [creates_step _ _ _ hloc]; rfl
    have hg' : gets (actorStep target stub r).2.trace = 0 := by
      rw [hshape]; show gets (_ ++ _ :: _) = _
      rw [gets_step _ _ _ hloc, hg]; rfl
    have hd' : deletes (actorStep target stub r).2.trace = 0 := by
      rw [hshape]; show deletes (_ ++ _ :: _) = _
      rw [deletes_step _ _ _ hloc, hd]; rfl
    have hr' : rejections (actorStep target stub r).2.trace =
        rejections r.trace + rejections (afterCreate target b (stub.create target).2).1 := by
      rw [hshape]; exact rejections_step _ _ _
    have hpc' : (actorStep target stub r).2.pc = (afterCreate target b (stub.create target).2).2 := by
      rw [hshape]
    cases hpres : stub.present with
    | true =>
      have hrep : (stub.create target).2 = some (alreadyExistsError target) := by
        unfold Stub.create; rw [hpres]; rfl
      rw [hrep] at hr' hpc'
      rw [afterCreate_rejections target b _ (isAlreadyExists_stub target)] at hr'
      unfold actorCounts
      rcases afterCreate_failed target b (alreadyExistsError target) with ⟨n, hn⟩ | ⟨e, he⟩
      · rw [hpc', hn]
        exact ⟨by rw [hr', hc, hr], hg', hd'⟩
      · rw [hpc', he]
        exact ⟨by rw [hr', hc, hr], hg', hd'⟩
    | false =>
      have hrep : (stub.create target).2 = none := by
        unfold Stub.create; rw [hpres]; rfl
      rw [hrep] at hr' hpc'
      unfold actorCounts
      rw [hpc']
      show rejections _ + 1 = creates _ ∧ deletes _ = 0
      refine ⟨?_, hd'⟩
      rw [hr', hc, hr]
      rfl
  | get =>
    unfold actorCounts at h
    rw [hpc] at h hp
    have hpres := hp rfl
    have hget : stub.get = .ok (statusWith stub.phase) := by
      unfold Stub.get; rw [hpres]; rfl
    have hshape : (actorStep target stub r).2 =
        ⟨r.trace ++ .call (.Get nmName) :: (afterGet stub.get).1, (afterGet stub.get).2⟩ := by
      unfold actorStep; rw [hpc]
    rw [hget] at hshape
    unfold actorCounts
    rw [hshape]
    show rejections (_ ++ _ :: _) + 1 = creates (_ ++ _ :: _) ∧ deletes (_ ++ _ :: _) = 0
    rw [rejections_step, creates_step _ _ _ (afterGet_noCalls _),
      deletes_step _ _ _ (afterGet_noCalls _)]
    exact ⟨h.1, h.2⟩
  | delete =>
    unfold actorCounts at h
    rw [hpc] at h hp
    have hpres := hp rfl
    have hdel : stub.delete.2 = none := by
      unfold Stub.delete; rw [hpres]; rfl
    have hshape : (actorStep target stub r).2 =
        ⟨r.trace ++ .call (.Delete nmName) :: (afterDelete stub.delete.2).1,
          (afterDelete stub.delete.2).2⟩ := by
      unfold actorStep; rw [hpc]
    rw [hdel] at hshape
    unfold actorCounts
    rw [hshape]
    show rejections (_ ++ _ :: _) + 1 = creates (_ ++ _ :: _) ∧ deletes (_ ++ _ :: _) = 1
    rw [rejections_step, creates_step _ _ _ (afterDelete_noCalls _),
      deletes_step _ _ _ (afterDelete_noCalls _), h.2]
    exact ⟨h.1, rfl⟩
  | status site =>
    have hshape : (actorStep target stub r).2 =
        ⟨r.trace ++ .call (.List (listOptions target)) ::
            (afterStatus target site (stub.list target)).1,
          (afterStatus target site (stub.list target)).2⟩ := by
      unfold actorStep; rw [hpc]
    have hlist : afterStatus target site (stub.list target) =
        andThen [.stdlog (workerStatusLine ⟨target, stub.present⟩)] (afterStatusAt site) :=
      afterStatus_single target site _
    have hloc := afterStatus_noCalls target site (stub.list target)
    have hc : creates (actorStep target stub r).2.trace = creates r.trace := by
      rw [hshape]; show creates (_ ++ _ :: _) = _
      rw [creates_step _ _ _ hloc]; rfl
    have hd' : deletes (actorStep target stub r).2.trace = deletes r.trace := by
      rw [hshape]; show deletes (_ ++ _ :: _) = _
      rw [deletes_step _ _ _ hloc]; rfl
    have hr' : rejections (actorStep target stub r).2.trace = rejections r.trace := by
      rw [hshape]; show rejections (_ ++ _ :: _) = _
      rw [rejections_step, hlist]
      have := afterStatusAt_rejections site
      unfold rejections at *
      show _ + List.countP _ (_ :: (afterStatusAt site).1) = _
      rw [List.countP_cons, this]
      rfl
    have hpc' : (actorStep target stub r).2.pc = (afterStatusAt site).2 := by
      rw [hshape]; show (afterStatus target site (stub.list target)).2 = _
      rw [hlist]; rfl
    unfold actorCounts at h ⊢
    rw [hpc] at h
    rw [hpc', hr', hc, hd']
    cases site with
    | afterCreate => exact h
    | inLoop st =>
      simp only [afterStatusAt, andThen]
      split_ifs <;> exact h
    | beforeDelete => exact h
    | afterDelete => exact h

theorem holding_present (s : Sys) (h : sysInv s) :
    (s.a1.pc.holding = true → s.stub.present = true) ∧
      (s.a2.pc.holding = true → s.stub.present = true) := by
  obtain ⟨hp, _, _, _⟩ := h
  constructor
  · intro h1; rw [hp, h1]; rfl
  · intro h2; rw [hp, h2]; exact Bool.or_true _

/-- In the race no actor ends the process, so every move is made. -/
theorem step_actor1 (target : String) (s : Sys) (h : sysInv s) :
    Sys.step target s .actor1 =
      { s with stub := (actorStep target s.stub s.a1).1, a1 := (actorStep target s.stub s.a1).2 } := by
  unfold Sys.step
  rw [actorOk_not_exited _ h.2.2.1, actorOk_not_exited _ h.2.2.2]
  rfl

theorem step_actor2 (target : String) (s : Sys) (h : sysInv s) :
    Sys.step target s .actor2 =
      { s with stub := (actorStep target s.stub s.a2).1, a2 := (actorStep target s.stub s.a2).2 } := by
  unfold Sys.step
  rw [actorOk_not_exited _ h.2.2.1, actorOk_not_exited _ h.2.2.2]
  rfl

theorem step_drain (target : String) (s : Sys) (h : sysInv s) :
    Sys.step target s .drain = { s with stub := s.stub.drain } := by
  unfold Sys.step
  rw [actorOk_not_exited _ h.2.2.1, actorOk_not_exited _ h.2.2.2]
  rfl

theorem counts_step (target : String) (s : Sys) (m : Move) (h : sysInv s)
    (h1 : actorCounts s.a1) (h2 : actorCounts s.a2) :
    actorCounts (Sys.step target s m).a1 ∧ actorCounts (Sys.step target s m).a2 := by
  obtain ⟨p1, p2⟩ := holding_present s h
  cases m with
  | actor1 =>
    rw [step_actor1 target s h]
    exact ⟨actorStep_counts target s.stub s.a1 p1 h1, h2⟩
  | actor2 =>
    rw [step_actor2 target s h]
    exact ⟨h1, actorStep_counts target s.stub s.a2 p2 h2⟩
  | drain =>
    rw [step_drain target s h]
    exact ⟨h1, h2⟩

theorem counts_foldl (target : String) (schedule : List Move) (s : Sys) (h : sysInv s)
    (h1 : actorCounts s.a1) (h2 : actorCounts s.a2) :
    actorCounts (schedule.foldl (Sys.step target) s).a1 ∧
      actorCounts (schedule.foldl (Sys.step target) s).a2 := by
  induction schedule generalizing s with
  | nil => exact ⟨h1, h2⟩
  | cons m ms ih =>
    obtain ⟨k1, k2⟩ := counts_step target s m h h1 h2
    exact ih _ (sysInv_step target s m h) k1 k2

theorem counts_run (target : String) (schedule : List Move) :
    actorCounts (runActors target schedule).a1 ∧ actorCounts (runActors target schedule).a2 :=
  counts_foldl target schedule _ sysInv_init
    ⟨by decide, by decide, by decide⟩ ⟨by decide, by decide, by decide⟩

/-- How an actor of the race has ended: with success, all its create calls but
the accepted one rejected and its one delete made; or with the create timeout,
after exactly ten create calls, all rejected, and no get or delete call. -/
theorem outcome_of_actor (r : Run) (hok : actorOk r) (hc : actorCounts r) (o : Outcome)
    (ho : r.pc = .halted o) :
    (o = .success ∧ rejections r.trace + 1 = creates r.trace ∧ deletes r.trace = 1) ∨
    (o = .createFailed .ErrWaitTimeout ∧ creates r.trace = 10 ∧ rejections r.trace = 10 ∧
      gets r.trace = 0 ∧ deletes r.trace = 0) := by
  unfold actorCounts at hc
  rw [ho] at hc
  rcases hok.2.2 o ho with rfl | ⟨rfl, h10⟩
  · exact Or.inl ⟨rfl, hc.1, hc.2⟩
  · exact Or.inr ⟨rfl, h10, by rw [hc.1, h10], hc.2.1, hc.2.2⟩

theorem drain_phase (stub : Stub) (h : stub.present = true) :
    stub.drain.phase = MaintenanceSucceeded := by
  unfold Stub.drain
  rw [if_pos h]

/-- An actor that does not hold the request leaves an existing request alone. -/
theorem actorStep_stub_same (target : String) (stub : Stub) (r : Run)
    (hnh : r.pc.holding = false) (hpres : stub.present = true) :
    (actorStep target stub r).1 = stub := by
  cases hpc : r.pc with
  | halted o => unfold actorStep; rw [hpc]
  | create b =>
    unfold actorStep; rw [hpc]
    show (stub.create target).1 = stub
    unfold Stub.create; rw [hpres]; rfl
  | status site => unfold actorStep; rw [hpc]
  | get => rw [hpc] at hnh; exact Bool.noConfusion hnh
  | delete => rw [hpc] at hnh; exact Bool.noConfusion hnh

/-- Against a drained request every call of an actor brings its end nearer. -/
theorem actorStep_measure (target : String) (stub : Stub) (r : Run) (hok : actorOk r)
    (hp : r.pc.holding = true → stub.present = true)
    (hph : r.pc = .get → stub.phase = MaintenanceSucceeded) :
    (actorStep target stub r).2.pc.stepsLeft ≤ r.pc.stepsLeft - 1 := by
  cases hpc : r.pc with
  | halted o =>
    have : actorStep target stub r = (stub, r) := by
      unfold actorStep; rw [hpc]
    rw [this, hpc]
    exact Nat.zero_le _
  | create b =>
    obtain ⟨hb1, _⟩ := hok.2.1 b hpc
    have hpc' : (actorStep target stub r).2.pc = (afterCreate target b (stub.create target).2).2 := by
      unfold actorStep; rw [hpc]
    rw [hpc']
    show _ ≤ b.Steps + 6 - 1
    cases hpres : stub.present with
    | true =>
      have hrep : (stub.create target).2 = some (alreadyExistsError target) := by
        unfold Stub.create; rw [hpres]; rfl
      rw [hrep]
      by_cases hs : b.Steps = 1
      · rw [afterCreate_last target b _ (isAlreadyExists_stub target) hs]
        exact Nat.zero_le _
      · rw [afterCreate_retry target b _ (isAlreadyExists_stub target) (by omega)]
        show b.Steps - 1 + 6 ≤ b.Steps + 6 - 1
        omega
    | false =>
      have hrep : (stub.create target).2 = none := by
        unfold Stub.create; rw [hpres]; rfl
      rw [hrep]
      show 6 ≤ b.Steps + 6 - 1
      omega
  | get =>
    rw [hpc] at hp
    have hpres := hp rfl
    have hphase := hph hpc
    have hpc' : (actorStep target stub r).2.pc = (afterGet stub.get).2 := by
      unfold actorStep; rw [hpc]
    have hget : stub.get = .ok (statusWith MaintenanceSucceeded) := by
      unfold Stub.get; rw [hpres, hphase]; rfl
    rw [hpc', hget]
    decide
  | delete =>
    rw [hpc] at hp
    have hpres := hp rfl
    have hpc' : (actorStep target stub r).2.pc = (afterDelete stub.delete.2).2 := by
      unfold actorStep; rw [hpc]
    have hdel : stub.delete.2 = none := by
      unfold Stub.delete; rw [hpres]; rfl
    rw [hpc', hdel]
    decide
  | status site =>
    have hpc' : (actorStep target stub r).2.pc = (afterStatusAt site).2 := by
      unfold actorStep; rw [hpc]
      show (afterStatus target site (stub.list target)).2 = _
      rw [show stub.list target = .ok [⟨target, stub.present⟩] from rfl,
        afterStatus_single target site _]
      rfl
    rw [hpc']
    cases site with
    | afterCreate => decide
    | inLoop st =>
      simp only [afterStatusAt, andThen, Pc.stepsLeft]
      split_ifs <;> decide
    | beforeDelete => decide
    | afterDelete => decide

/-- One fair round keeps the invariant of the race and brings the end of each
actor nearer. -/
theorem fairRound_measure (target : String) (s : Sys) (h : sysInv s) :
    sysInv (fairRound.foldl (Sys.step target) s) ∧
    (fairRound.foldl (Sys.step target) s).a1.pc.stepsLeft ≤ s.a1.pc.stepsLeft - 1 ∧
    (fairRound.foldl (Sys.step target) s).a2.pc.stepsLeft ≤ s.a2.pc.stepsLeft - 1 := by
  have hd := sysInv_step target s .drain h
  have e0 := step_drain target s h
  have h1 := sysInv_step target _ .actor1 hd
  have e1 := step_actor1 target _ hd
  have h2 := sysInv_step target _ .actor2 h1
  have e2 := step_actor2 target _ h1
  show sysInv (Sys.step target (Sys.step target (Sys.step target s .drain) .actor1) .actor2) ∧
    (Sys.step target (Sys.step target (Sys.step target s .drain) .actor1) .actor2).a1.pc.stepsLeft
      ≤ _ ∧
    (Sys.step target (Sys.step target (Sys.step target s .drain) .actor1) .actor2).a2.pc.stepsLeft
      ≤ _
  refine ⟨h2, ?_, ?_⟩
  · rw [e2]
    show (Sys.step target (Sys.step target s .drain) .actor1).a1.pc.stepsLeft ≤ _
    rw [e1]
    show (actorStep target (Sys.step target s .drain).stub (Sys.step target s .drain).a1).2.pc.stepsLeft
      ≤ _
    rw [e0]
    obtain ⟨p1, _⟩ := holding_present s h
    refine actorStep_measure target s.stub.drain s.a1 h.2.2.1 ?_ ?_
    · intro hh; rw [drain_present]; exact p1 hh
    · intro hg
      refine drain_phase _ (p1 ?_)
      rw [hg]; rfl
  · rw [e2]
    show (actorStep target (Sys.step target (Sys.step target s .drain) .actor1).stub
      (Sys.step target (Sys.step target s .drain) .actor1).a2).2.pc.stepsLeft ≤ _
    obtain ⟨_, q2⟩ := holding_present _ h1
    have ha2 : (Sys.step target (Sys.step target s .drain) .actor1).a2 = s.a2 := by
      rw [e1, e0]
    have hok2 : actorOk (Sys.step target (Sys.step target s .drain) .actor1).a2 := h1.2.2.2
    have key := actorStep_measure target
      (Sys.step target (Sys.step target s .drain) .actor1).stub
      (Sys.step target (Sys.step target s .drain) .actor1).a2 hok2 q2 ?_
    · rw [ha2] at key ⊢
      exact key
    · intro hg
      rw [ha2] at hg
      have hh2 : s.a2.pc.holding = true := by rw [hg]; rfl
      have hn1 : s.a1.pc.holding = false := by
        cases hh1 : s.a1.pc.holding with
        | false => rfl
        | true => exact absurd ⟨hh1, hh2⟩ h.2.1
      have hpres : s.stub.present = true := (holding_present s h).2 hh2
      rw [e1]
      show (actorStep target (Sys.step target s .drain).stub (Sys.step target s .drain).a1).1.phase = _
      rw [e0]
      show (actorStep target s.stub.drain s.a1).1.phase = _
      rw [actorStep_stub_same target s.stub.drain s.a1 hn1 (by rw [drain_present]; exact hpres)]
      exact drain_phase _ hpres

theorem fairRounds_succ (n : Nat) : fairRounds (n + 1) = fairRound ++ fairRounds n := by
  unfold fairRounds
  rw [List.replicate_succ, List.flatten_cons]

/-- After `n` fair rounds each actor is `n` calls nearer to its end. -/
theorem fairRounds_measure (target : String) (n : Nat) (s : Sys) (h : sysInv s) :
    sysInv ((fairRounds n).foldl (Sys.step target) s) ∧
    ((fairRounds n).foldl (Sys.step target) s).a1.pc.stepsLeft ≤ s.a1.pc.stepsLeft - n ∧
    ((fairRounds n).foldl (Sys.step target) s).a2.pc.stepsLeft ≤ s.a2.pc.stepsLeft - n := by
  induction n generalizing s with
  | zero => exact ⟨h, le_refl _, le_refl _⟩
  | succ n ih =>
    obtain ⟨k, k1, k2⟩ := fairRound_measure target s h
    obtain ⟨j, j1, j2⟩ := ih _ k
    rw [fairRounds_succ, List.foldl_append]
    exact ⟨j, by omega, by omega⟩

theorem stepsLeft_le (r : Run) (h : actorOk r) : r.pc.stepsLeft ≤ 16 := by
  cases hpc : r.pc with
  | halted o => exact Nat.zero_le _
  | create b =>
    obtain ⟨_, hb⟩ := h.2.1 b hpc
    show b.Steps + 6 ≤ 16
    omega
  | get => decide
  | delete => decide
  | status site =>
    cases site with
    | afterCreate => decide
    | inLoop st =>
      simp only [Pc.stepsLeft]
      split_ifs <;> decide
    | beforeDelete => decide
    | afterDelete => decide

theorem halted_of_stepsLeft (pc : Pc) (h : pc.stepsLeft = 0) : ∃ o, pc = .halted o := by
  cases pc with
  | halted o => exact ⟨o, rfl⟩
  | create b => exact absurd h (Nat.succ_ne_zero _)
  | get => exact absurd h (by decide)
  | delete => exact absurd h (by decide)
  | status site =>
    cases site with
    | afterCreate => exact absurd h (by decide)
    | inLoop st =>
      simp only [Pc.stepsLeft] at h
      split_ifs at h
    | beforeDelete => exact absurd h (by decide)
    | afterDelete => exact absurd h (by decide)

/-- From every point of the race, sixteen fair rounds end both actors. -/
theorem fair_rounds_end (target : String) (schedule : List Move) :
    ∃ o1 o2, (runActors target (schedule ++ fairRounds 16)).a1.pc = .halted o1 ∧
      (runActors target (schedule ++ fairRounds 16)).a2.pc = .halted o2 := by
  have h := sysInv_run target schedule
  obtain ⟨_, m1, m2⟩ := fairRounds_measure target 16 _ h
  have b1 := stepsLeft_le _ h.2.2.1
  have b2 := stepsLeft_le _ h.2.2.2
  have e : runActors target (schedule ++ fairRounds 16) =
      (fairRounds 16).foldl (Sys.step target) (runActors target schedule) := by
    unfold runActors
    rw [List.foldl_append]
  rw [e]
  have z1 : ((fairRounds 16).foldl (Sys.step target) (runActors target schedule)).a1.pc.stepsLeft
      = 0 := by omega
  have z2 : ((fairRounds 16).foldl (Sys.step target) (runActors target schedule)).a2.pc.stepsLeft
      = 0 := by omega
  obtain ⟨o1, h1⟩ := halted_of_stepsLeft _ z1
  obtain ⟨o2, h2⟩ := halted_of_stepsLeft _ z2
  exact ⟨o1, o2, h1, h2⟩

/-- The create attempt of an actor of the race ends its run with the timeout
exactly when the request exists and it is the actor's tenth attempt. -/
theorem create_attempt_timeout (target : String) (stub : Stub) (r : Run) (b : Backoff)
    (hpc : r.pc = .create b) (hok : actorOk r) :
    (actorStep target stub r).2.pc = .halted (.createFailed .ErrWaitTimeout) ↔
      (stub.present = true ∧ creates r.trace = 9) := by
  obtain ⟨hb1, hb10⟩ := hok.2.1 b hpc
  have hshape : (actorStep target stub r).2.pc =
      (afterCreate target b (stub.create target).2).2 := by
    unfold actorStep; rw [hpc]
  rw [hshape]
  cases hpres : stub.present with
  | true =>
    have hc : (stub.create target).2 = some (alreadyExistsError target) := by
      unfold Stub.create; rw [hpres]; rfl
    rw [hc]
    by_cases hs : b.Steps = 1
    · rw [afterCreate_last target b _ (isAlreadyExists_stub target) hs]
      exact ⟨fun _ => ⟨rfl, by omega⟩, fun _ => rfl⟩
    · rw [afterCreate_retry target b _ (isAlreadyExists_stub target) (by omega)]
      constructor
      · intro h; cases h
      · intro h; omega
  | false =>
    have hc : (stub.create target).2 = none := by
      unfold Stub.create; rw [hpres]; rfl
    rw [hc]
    constructor
    · intro h; cases h
    · intro h; exact Bool.noConfusion h.1

/-- C10 (as amended). Two actors against the stub that enforces uniqueness: in
every interleaving, for every target, at most one actor is between its
successful create and its delete; a create attempt made while the other actor
holds the request fails with the "already exists" condition that the driver
retries, one made while the other does not hold it (before its create or
after its delete) succeeds, and an attempt ends the run with the timeout
exactly when it is the actor's tenth and the other actor holds the request;
neither actor makes more than 10 create attempts; an actor that has ended has
either succeeded, with all its earlier create calls rejected and its one
delete made, or timed out after exactly ten create calls, all ten rejected,
without any get or delete call; and from every point of every interleaving
sixteen fair rounds (drain, actor 1, actor 2) end both actors. In the schedule
of the scenario, where actor 2 is rejected twice and creates after actor 1's
delete, both actors end with success and `wg.Wait()` returns. -/
theorem server_side_exclusion (target : String) (schedule : List Move) :
    ¬ ((runActors target schedule).a1.pc.holding = true ∧
        (runActors target schedule).a2.pc.holding = true) ∧
    ((runActors target schedule).stub.create target).2 =
      (if (runActors target schedule).a1.pc.holding || (runActors target schedule).a2.pc.holding
        then some (alreadyExistsError target) else none) ∧
    isAlreadyExists target (alreadyExistsError target) = true ∧
    (∀ b, (runActors target schedule).a2.pc = .create b →
      ((Sys.step target (runActors target schedule) .actor2).a2.pc = .status .afterCreate ↔
        (runActors target schedule).a1.pc.holding = false) ∧
      ((Sys.step target (runActors target schedule) .actor2).a2.pc =
          .halted (.createFailed .ErrWaitTimeout) ↔
        ((runActors target schedule).a1.pc.holding = true ∧
          creates (runActors target schedule).a2.trace = 9))) ∧
    (∀ b, (runActors target schedule).a1.pc = .create b →
      ((Sys.step target (runActors target schedule) .actor1).a1.pc = .status .afterCreate ↔
        (runActors target schedule).a2.pc.holding = false) ∧
      ((Sys.step target (runActors target schedule) .actor1).a1.pc =
          .halted (.createFailed .ErrWaitTimeout) ↔
        ((runActors target schedule).a2.pc.holding = true ∧
          creates (runActors target schedule).a1.trace = 9))) ∧
    creates (runActors target schedule).a1.trace ≤ 10 ∧
    creates (runActors target schedule).a2.trace ≤ 10 ∧
    (∀ o, (runActors target schedule).a1.pc = .halted o →
      (o = .success ∧
        rejections (runActors target schedule).a1.trace + 1 =
          creates (runActors target schedule).a1.trace ∧
        deletes (runActors target schedule).a1.trace = 1) ∨
      (o = .createFailed .ErrWaitTimeout ∧
        creates (runActors target schedule).a1.trace = 10 ∧
        rejections (runActors target schedule).a1.trace = 10 ∧
        gets (runActors target schedule).a1.trace = 0 ∧
        deletes (runActors target schedule).a1.trace = 0)) ∧
    (∀ o, (runActors target schedule).a2.pc = .halted o →
      (o = .success ∧
        rejections (runActors target schedule).a2.trace + 1 =
          creates (runActors target schedule).a2.trace ∧
        deletes (runActors target schedule).a2.trace = 1) ∨
      (o = .createFailed .ErrWaitTimeout ∧
        creates (runActors target schedule).a2.trace = 10 ∧
        rejections (runActors target schedule).a2.trace = 10 ∧
        gets (runActors target schedule).a2.trace = 0 ∧
        deletes (runActors target schedule).a2.trace = 0)) ∧
    (∃ o1 o2, (runActors target (schedule ++ fairRounds 16)).a1.pc = .halted o1 ∧
      (runActors target (schedule ++ fairRounds 16)).a2.pc = .halted o2) ∧
    ((runActors "nodeA" fairSchedule).a1.pc = .halted .success ∧
      (runActors "nodeA" fairSchedule).a2.pc = .halted .success ∧
      creates (runActors "nodeA" fairSchedule).a2.trace = 3 ∧
      waitReturns (runActors "nodeA" fairSchedule).a1.trace
        (runActors "nodeA" fairSchedule).a2.trace = true) := by
  have hinv := sysInv_run target schedule
  obtain ⟨hp, hx, h1, h2⟩ := hinv
  obtain ⟨c1, c2⟩ := counts_run target schedule
  have hpres1 : (runActors target schedule).a1.pc.holding = false →
      (runActors target schedule).a2.pc.holding = (runActors target schedule).stub.present := by
    intro h; rw [hp, h]; rfl
  refine ⟨hx, ?_, isAlreadyExists_stub target, ?_, ?_, h1.1, h2.1,
    outcome_of_actor _ h1 c1, outcome_of_actor _ h2 c2, fair_rounds_end target schedule, ?_⟩
  · unfold Stub.create
    rw [← hp]
    cases (runActors target schedule).stub.present <;> rfl
  · intro b hb
    have hn2 : (runActors target schedule).a2.pc.holding = false := by rw [hb]; rfl
    have hpa : (runActors target schedule).stub.present =
        (runActors target schedule).a1.pc.holding := by
      rw [hp, hn2, Bool.or_false]
    rw [step_actor2 target _ ⟨hp, hx, h1, h2⟩]
    constructor
    · show (actorStep target _ _).2.pc = _ ↔ _
      rw [create_attempt target _ _ b hb, hpa]
    · show (actorStep target _ _).2.pc = _ ↔ _
      rw [create_attempt_timeout target _ _ b hb h2, hpa]
  · intro b hb
    have hn1 : (runActors target schedule).a1.pc.holding = false := by rw [hb]; rfl
    have hpa : (runActors target schedule).stub.present =
        (runActors target schedule).a2.pc.holding := by
      rw [hp, hn1, Bool.false_or]
    rw [step_actor1 target _ ⟨hp, hx, h1, h2⟩]
    constructor
    · show (actorStep target _ _).2.pc = _ ↔ _
      rw [create_attempt target _ _ b hb, hpa]
    · show (actorStep target _ _).2.pc = _ ↔ _
      rw [create_attempt_timeout target _ _ b hb h1, hpa]
  · refine ⟨?_, ?_, ?_, ?_⟩ <;> decide

set_option maxRecDepth 100000 in
/-- C10 as stated fails: under a schedule that follows the sleeps of the program
(actor 1 polls every 5 seconds, actor 2 attempts its create every 10 seconds)
and in which the drain ends only after actor 2's tenth attempt, actor 1 ends
with success but actor 2 has used its ten attempts, all rejected with "already
exists", and ends with the create timeout. -/
theorem slow_drain_times_out_second_actor :
    (runActors "nodeA" slowDrainSchedule).a1.pc = .halted .success ∧
    (runActors "nodeA" slowDrainSchedule).a2.pc = .halted (.createFailed .ErrWaitTimeout) ∧
    creates (runActors "nodeA" slowDrainSchedule).a2.trace = 10 ∧
    rejections (runActors "nodeA" slowDrainSchedule).a2.trace = 10 ∧
    gets (runActors "nodeA" slowDrainSchedule).a1.trace = 20 ∧
    (runActors "nodeA" slowDrainSchedule).stub.present = false := by
  refine ⟨?_, ?_, ?_, ?_, ?_, ?_⟩ <;> decide

end NmoUsage
